import Mathlib

/-!
# RayTracer: a shallow embedding of `RayTracer.cpp` and `vectornd.h`

The program computes with `double`.  The embedding is generic in an ordered
field `K` standing for the numbers: every definition below is computable when
`K` is instantiated with `ℚ`, and the closing examples of the theorems are
taken at the reals with `Real.sqrt`.  Rounding, overflow, infinities and NaN
are outside the model.  The theorems on the control flow of the scene
(closest hit, shadow, lights, buffer) use no law of arithmetic that double
lacks.  The theorems that do depend on the arithmetic say so: they are stated
for an exact square root (`CMath.Exact`), and where they describe the program
they carry the ranges in which double neither overflows nor loses the result
to rounding.

The functions of `<cmath>` that the program calls (`sqrt`, `pow`) are passed
in a record `CMath`; the functions of glm that it calls (`dot`, `normalize`,
`reflect`, `clamp`, the arithmetic of `dvec3`) are written out from their glm
definitions.
-/

namespace RayTracer

/-! ## glm::dvec3 -/

/-- A `glm::dvec3`: the common representation of `Position3`, `Vector3` and
`Color3` (`RayTracer.cpp` lines 20-22). -/
@[ext]
structure Vec3 (K : Type) where
  x : K
  y : K
  z : K
deriving DecidableEq, Repr

/-- The `<cmath>` functions called by the program. -/
structure CMath (K : Type) where
  sqrt : K → K
  pow : K → K → K

section Field

variable {K : Type} [LinearOrderedField K]

namespace Vec3

instance : Zero (Vec3 K) := ⟨⟨0, 0, 0⟩⟩

/-- Component-wise sum, glm `operator+`. -/
instance : Add (Vec3 K) := ⟨fun a b => ⟨a.x + b.x, a.y + b.y, a.z + b.z⟩⟩

/-- Component-wise difference, glm `operator-`. -/
instance : Sub (Vec3 K) := ⟨fun a b => ⟨a.x - b.x, a.y - b.y, a.z - b.z⟩⟩

/-- Unary minus, glm `operator-`. -/
instance : Neg (Vec3 K) := ⟨fun a => ⟨-a.x, -a.y, -a.z⟩⟩

/-- Component-wise product of two vectors, glm `operator*` (used on colours). -/
instance : Mul (Vec3 K) := ⟨fun a b => ⟨a.x * b.x, a.y * b.y, a.z * b.z⟩⟩

/-- Product of a vector with a scalar, glm `operator*(vec, scalar)`. -/
def scale (a : Vec3 K) (s : K) : Vec3 K := ⟨a.x * s, a.y * s, a.z * s⟩

/-- Quotient of a vector by a scalar, glm `operator/(vec, scalar)`. -/
def divs (a : Vec3 K) (s : K) : Vec3 K := ⟨a.x / s, a.y / s, a.z / s⟩

end Vec3

/-- The glm function `dot`. -/
def dot (a b : Vec3 K) : K := a.x * b.x + a.y * b.y + a.z * b.z

/-- `lenSq` (`RayTracer.cpp` lines 24-28). -/
def lenSq (v : Vec3 K) : K := dot v v

/-- `solveQuadratic` (`RayTracer.cpp` lines 30-49): `none` for `return false`,
`some (x0, x1)` for `return true` with the two output parameters. -/
def solveQuadratic (m : CMath K) (a b c : K) : Option (K × K) :=
  let discr := b * b - 4 * a * c
  if discr < 0 then
    none
  else if discr = 0 then
    let x := -0.5 * b / a
    some (x, x)
  else
    let q := if b > 0 then -0.5 * (b + m.sqrt discr) else -0.5 * (b - m.sqrt discr)
    some (q / a, c / q)

/-- `struct Ray` (`RayTracer.cpp` lines 51-56). -/
structure Ray (K : Type) where
  origin : Vec3 K
  direction : Vec3 K
deriving DecidableEq, Repr

/-- `struct Sphere` (`RayTracer.cpp` lines 58-65). -/
structure Sphere (K : Type) where
  center : Vec3 K
  radius : K
deriving DecidableEq, Repr

/-- `Sphere::getNormal` (`RayTracer.cpp` line 64). -/
def Sphere.getNormal (s : Sphere K) (pi : Vec3 K) : Vec3 K :=
  (pi - s.center).divs s.radius

/-- The free function `intersect` (`RayTracer.cpp` lines 68-107): `none` for
`return false`, `some t` for `return true` with the output parameter `t`.
The branch under `if (false)` is dead and is left out. -/
def intersect (m : CMath K) (ray : Ray K) (s : Sphere K) : Option K :=
  let radius_sq := s.radius * s.radius
  let L := ray.origin - s.center
  let a := lenSq ray.direction
  let b := 2 * dot ray.direction L
  let c := lenSq L - radius_sq
  match solveQuadratic m a b c with
  | none => none
  | some (x0, x1) =>
    let t0 := if x0 > x1 then x1 else x0
    let t1 := if x0 > x1 then x0 else x1
    if t0 > 0 then some t0
    else if t1 > 0 then some t1
    else none

/-- The value `q` of `solveQuadratic` when the discriminant is positive
(`RayTracer.cpp` lines 42-44). -/
def solveQuadraticQ (m : CMath K) (a b c : K) : K :=
  if b > 0 then -0.5 * (b + m.sqrt (b * b - 4 * a * c))
  else -0.5 * (b - m.sqrt (b * b - 4 * a * c))

/-! ## glm functions used by the scene -/

/-- The glm function `normalize`: `v * inversesqrt(dot(v, v))`. -/
def normalize (m : CMath K) (v : Vec3 K) : Vec3 K :=
  v.scale (1 / m.sqrt (dot v v))

/-- The glm function `reflect`: `I - N * dot(N, I) * 2`. -/
def reflect (I N : Vec3 K) : Vec3 K :=
  I - (N.scale (dot N I)).scale 2

/-- The glm function `clamp` on a vector with scalar bounds:
`min(max(x, minVal), maxVal)` on every component. -/
def clamp (v : Vec3 K) (minVal maxVal : K) : Vec3 K :=
  ⟨min (max v.x minVal) maxVal, min (max v.y minVal) maxVal, min (max v.z minVal) maxVal⟩

/-! ## Scene -/

/-- `struct Material` (`RayTracer.cpp` lines 109-115). -/
structure Material (K : Type) where
  ambient : Vec3 K
  diffuse : Vec3 K
  specular : Vec3 K
  shininess : K
deriving DecidableEq, Repr

/-- `struct Object` (`RayTracer.cpp` lines 117-122). -/
structure Object (K : Type) where
  geom : Sphere K
  mat : Material K
deriving DecidableEq, Repr

/-- `struct LightProp` (`RayTracer.cpp` lines 124-129). -/
structure LightProp (K : Type) where
  ambient : Vec3 K
  diffuse : Vec3 K
  specular : Vec3 K
deriving DecidableEq, Repr

/-- `struct Light` (`RayTracer.cpp` lines 131-136). -/
structure Light (K : Type) where
  pos : Vec3 K
  prop : LightProp K
deriving DecidableEq, Repr

/-- `struct Scene` (`RayTracer.cpp` lines 138-145): the two `std::vector`s are
lists. -/
structure Scene (K : Type) where
  bg : Vec3 K
  ambience : Vec3 K
  objs : List (Object K)
  lights : List (Light K)
deriving Repr

/-- The bias `0.000001` subtracted from hit distances (`RayTracer.cpp`
lines 158 and 180). -/
def bias : K := 0.000001

/-- The loop of `Scene::intersect` (`RayTracer.cpp` lines 150-163) over the
objects still to visit.  `i` is the position in `objs` of the first of them;
`o` is the pointer found so far, `none` for `nullptr` and otherwise the
position of the pointee in `objs` together with the pointee; `t` is the
current value of the in/out parameter. -/
def Scene.intersectLoop (m : CMath K) (ray : Ray K) :
    List (Object K) → Nat → Option (Nat × Object K) → K → Option (Nat × Object K) × K
  | [], _, o, t => (o, t)
  | obj :: rest, i, o, t =>
    match RayTracer.intersect m ray obj.geom with
    | some tt =>
      if tt < t ∨ o = none then
        Scene.intersectLoop m ray rest (i + 1) (some (i, obj)) (tt - bias)
      else
        Scene.intersectLoop m ray rest (i + 1) o t
    | none => Scene.intersectLoop m ray rest (i + 1) o t

/-- `Scene::intersect` (`RayTracer.cpp` lines 147-165).  The argument `t` is
the value the in/out parameter holds on entry; the result is the returned
pointer and the value of `t` on exit. -/
def Scene.intersect (m : CMath K) (s : Scene K) (ray : Ray K) (t : K) :
    Option (Nat × Object K) × K :=
  Scene.intersectLoop m ray s.objs 0 none t

/-- The loop of `Scene::inshadow` (`RayTracer.cpp` lines 175-185), the branch
compiled under `#else`. -/
def Scene.inshadowLoop (m : CMath K) (rayLight : Ray K) (ll : K) : List (Object K) → Bool
  | [] => false
  | obj :: rest =>
    match RayTracer.intersect m rayLight obj.geom with
    | some tt =>
      let tt := tt - bias
      if tt * tt < ll then true else Scene.inshadowLoop m rayLight ll rest
    | none => Scene.inshadowLoop m rayLight ll rest

/-- `Scene::inshadow` (`RayTracer.cpp` lines 167-187). -/
def Scene.inshadow (m : CMath K) (s : Scene K) (rayLight : Ray K) (L : Vec3 K) : Bool :=
  let ll := lenSq L
  Scene.inshadowLoop m rayLight ll s.objs

/-- The three accumulators `ambient`, `diffuse`, `specular` of
`Scene::lighting`. -/
structure Accum (K : Type) where
  ambient : Vec3 K
  diffuse : Vec3 K
  specular : Vec3 K

/-- One iteration of the loop over the lights in `Scene::lighting`
(`RayTracer.cpp` lines 201-239). -/
def Scene.lightingStep (m : CMath K) (s : Scene K) (incidence normal rayDirection : Vec3 K)
    (mat : Material K) (acc : Accum K) (l : Light K) : Accum K :=
  let L := l.pos - incidence
  let rayLight : Ray K := ⟨incidence, normalize m L⟩
  if s.inshadow m rayLight L = false then
    let ambient := acc.ambient + l.prop.ambient * mat.ambient
    let diff := dot rayLight.direction normal
    if diff > 0 then
      let light_col := l.prop.diffuse.scale diff * mat.diffuse
      let diffuse := acc.diffuse + light_col
      let reflect := reflect (-rayLight.direction) normal
      let view := -rayDirection
      let specularA := dot reflect view
      if specularA > 0 ∧ mat.shininess > 0 then
        let specularB := m.pow specularA mat.shininess
        ⟨ambient, diffuse, acc.specular + l.prop.specular.scale specularB * mat.specular⟩
      else
        ⟨ambient, diffuse, acc.specular⟩
    else
      ⟨ambient, acc.diffuse, acc.specular⟩
  else
    acc

/-- `Scene::lighting` (`RayTracer.cpp` lines 189-242). -/
def Scene.lighting (m : CMath K) (s : Scene K) (incidence normal rayDirection : Vec3 K)
    (mat : Material K) : Vec3 K :=
  let init : Accum K := ⟨0 + s.ambience * mat.ambient, 0, 0⟩
  let acc := s.lights.foldl (s.lightingStep m incidence normal rayDirection mat) init
  clamp (acc.ambient + acc.diffuse + acc.specular) 0 1

/-- `Scene::cast` (`RayTracer.cpp` lines 244-260).  The argument `t` is the
value of the local `double t`, which the code leaves uninitialised. -/
def Scene.cast (m : CMath K) (s : Scene K) (ray : Ray K) (t : K) : Vec3 K :=
  match s.intersect m ray t with
  | (some (_, o), t) =>
    let incidence := ray.origin + ray.direction.scale t
    let N := normalize m (o.geom.getNormal incidence)
    s.lighting m incidence N ray.direction o.mat
  | (none, _) => s.bg

/-! ## Image writer -/

/-- The C library function `lrint` in the default rounding mode: the nearest
integer, a tie going to the even one. -/
def lrint [FloorRing K] (x : K) : Int :=
  let f := Int.floor x
  if x - f < 1 / 2 then f
  else if 1 / 2 < x - f then f + 1
  else if f % 2 = 0 then f
  else f + 1

/-- The three numbers `SavePPM` writes for one pixel (`RayTracer.cpp`
lines 304-308), `colors` being 255. -/
def ppmPixel [FloorRing K] (c : Vec3 K) : Int × Int × Int :=
  let pix_col := c.scale 255
  (lrint pix_col.x, lrint pix_col.y, lrint pix_col.z)

/-! ## vectornd.h

`std::size_t` is an unsigned integer of `w` bits; its arithmetic is taken
modulo `2 ^ w`.  A `std::array<std::size_t, D>` is a list of `D` numbers.
The `assert`s of `index` are modelled as compiled in. -/

/-- `class vectornd<T, D>` (`vectornd.h` lines 7-74): the inherited
`std::vector<T>` and the member `m_size`; `D` is the length of `m_size`. -/
structure vectornd (T : Type) where
  data : List T
  m_size : List Nat

/-- `vectornd::flatten` (`vectornd.h` lines 61-67). -/
def vectornd.flatten (w : Nat) (size : List Nat) : Nat :=
  size.foldl (fun i r => (i * r) % 2 ^ w) 1

/-- The constructor `vectornd(size, value)` (`vectornd.h` lines 24-27); the
constructor `vectornd(size)` is the same with the default value of `T`. -/
def vectornd.create {T : Type} (w : Nat) (size : List Nat) (value : T) : vectornd T :=
  ⟨List.replicate (vectornd.flatten w size) value, size⟩

/-- The loop of `vectornd::index` (`vectornd.h` lines 51-56) over the
dimensions still to visit; `none` is a failed `assert`. -/
def vectornd.indexLoop (w : Nat) : List Nat → List Nat → Nat → Option Nat
  | s :: ss, p :: ps, i =>
    if ¬ (p ≥ 0) then none
    else if ¬ (p < s) then none
    else vectornd.indexLoop w ss ps ((i * s + p) % 2 ^ w)
  | _, _, i => some i

/-- `vectornd::index` (`vectornd.h` lines 48-58). -/
def vectornd.index {T : Type} (w : Nat) (v : vectornd T) (pos : List Nat) : Option Nat :=
  vectornd.indexLoop w v.m_size pos 0

/-- `vectornd::at` (`vectornd.h` lines 36-37), which `operator[]` (lines
39-40) forwards to: `std::vector<T>::at` on `index(pos)`; `none` is a failed
`assert` of `index` or the `std::out_of_range` of `std::vector<T>::at`. -/
def vectornd.atPos {T : Type} (w : Nat) (v : vectornd T) (pos : List Nat) : Option T :=
  match v.index w pos with
  | some i => v.data[i]?
  | none => none

/-! ## Notions used to state the properties -/

/-- The `sqrt` of `m` is exact: on every non-negative argument it returns the
non-negative square root. -/
def CMath.Exact (m : CMath K) : Prop :=
  ∀ x : K, 0 ≤ x → 0 ≤ m.sqrt x ∧ m.sqrt x * m.sqrt x = x

/-- The parameter `t` solves the equation `|O + t*D - C|^2 = r^2` of the ray
`O + t*D` and the sphere of centre `C` and radius `r`. -/
def onSphere (ray : Ray K) (s : Sphere K) (t : K) : Prop :=
  lenSq (ray.origin + ray.direction.scale t - s.center) = s.radius * s.radius

/-- Every channel of the colour lies in the closed interval `[0, 1]`. -/
def inUnit (c : Vec3 K) : Prop :=
  (0 ≤ c.x ∧ c.x ≤ 1) ∧ (0 ≤ c.y ∧ c.y ≤ 1) ∧ (0 ≤ c.z ∧ c.z ≤ 1)

/-- The ray hits the object: the free function `intersect` succeeds on its
sphere. -/
def hits (m : CMath K) (ray : Ray K) (obj : Object K) : Prop :=
  (RayTracer.intersect m ray obj.geom).isSome

/-- The pointer and the distance held by the loop of `Scene::intersect` belong
together: the pointee is an object of `objs` at the recorded position, the
ray hits it, and `t` is its raw hit distance minus the bias. -/
def Scene.Paired (m : CMath K) (ray : Ray K) (objs : List (Object K))
    (o : Option (Nat × Object K)) (t : K) : Prop :=
  ∀ i ob, o = some (i, ob) →
    objs[i]? = some ob ∧ ∃ tt, RayTracer.intersect m ray ob.geom = some tt ∧ t = tt - bias

/-- The row-major linear index in the words of the specification: the sum
over the dimensions `d` of `pos[d]` times the product of the sizes of all
later dimensions. -/
def rowMajorIndex (shape pos : List Nat) : Nat :=
  ((List.range shape.length).map (fun d => pos.getD d 0 * (shape.drop (d + 1)).prod)).sum

/-- Every component of `pos` is within the shape: `0 ≤ pos[d] < shape[d]`. -/
def inBounds (shape pos : List Nat) : Prop :=
  ∀ d, d < shape.length → 0 ≤ pos.getD d 0 ∧ pos.getD d 0 < shape.getD d 0

/-- The light is not in shadow at the shading point: `inshadow` is false for
its light ray (`RayTracer.cpp` lines 203-205). -/
def Scene.lit (m : CMath K) (s : Scene K) (incidence : Vec3 K) (l : Light K) : Bool :=
  !s.inshadow m ⟨incidence, normalize m (l.pos - incidence)⟩ (l.pos - incidence)

/-- The scene with the given lights in place of its own. -/
def Scene.withLights (s : Scene K) (lights : List (Light K)) : Scene K :=
  ⟨s.bg, s.ambience, s.objs, lights⟩

/-- The diffuse factor of a light: `dot(rayLight.direction, normal)`. -/
def diffOf (m : CMath K) (incidence normal : Vec3 K) (l : Light K) : K :=
  dot (normalize m (l.pos - incidence)) normal

/-- The specular factor of a light: `dot(reflect(-rayLight.direction, normal),
-rayDirection)` (`RayTracer.cpp` lines 228-230). -/
def specularAOf (m : CMath K) (incidence normal rayDirection : Vec3 K) (l : Light K) : K :=
  dot (reflect (-(normalize m (l.pos - incidence))) normal) (-rayDirection)

@[simp]
theorem Vec3.zero_x : (0 : Vec3 K).x = 0 := rfl

@[simp]
theorem Vec3.zero_y : (0 : Vec3 K).y = 0 := rfl

@[simp]
theorem Vec3.zero_z : (0 : Vec3 K).z = 0 := rfl

@[simp]
theorem Vec3.add_x (a b : Vec3 K) : (a + b).x = a.x + b.x := rfl

@[simp]
theorem Vec3.add_y (a b : Vec3 K) : (a + b).y = a.y + b.y := rfl

@[simp]
theorem Vec3.add_z (a b : Vec3 K) : (a + b).z = a.z + b.z := rfl

@[simp]
theorem Vec3.sub_x (a b : Vec3 K) : (a - b).x = a.x - b.x := rfl

@[simp]
theorem Vec3.sub_y (a b : Vec3 K) : (a - b).y = a.y - b.y := rfl

@[simp]
theorem Vec3.sub_z (a b : Vec3 K) : (a - b).z = a.z - b.z := rfl

@[simp]
theorem Vec3.neg_x (a : Vec3 K) : (-a).x = -a.x := rfl

@[simp]
theorem Vec3.neg_y (a : Vec3 K) : (-a).y = -a.y := rfl

@[simp]
theorem Vec3.neg_z (a : Vec3 K) : (-a).z = -a.z := rfl

@[simp]
theorem Vec3.mul_x (a b : Vec3 K) : (a * b).x = a.x * b.x := rfl

@[simp]
theorem Vec3.mul_y (a b : Vec3 K) : (a * b).y = a.y * b.y := rfl

@[simp]
theorem Vec3.mul_z (a b : Vec3 K) : (a * b).z = a.z * b.z := rfl

@[simp]
theorem Vec3.scale_x (a : Vec3 K) (s : K) : (a.scale s).x = a.x * s := rfl

@[simp]
theorem Vec3.scale_y (a : Vec3 K) (s : K) : (a.scale s).y = a.y * s := rfl

@[simp]
theorem Vec3.scale_z (a : Vec3 K) (s : K) : (a.scale s).z = a.z * s := rfl

@[simp]
theorem Vec3.divs_x (a : Vec3 K) (s : K) : (a.divs s).x = a.x / s := rfl

@[simp]
theorem Vec3.divs_y (a : Vec3 K) (s : K) : (a.divs s).y = a.y / s := rfl

@[simp]
theorem Vec3.divs_z (a : Vec3 K) (s : K) : (a.divs s).z = a.z / s := rfl

theorem Vec3.vadd_zero (a : Vec3 K) : a + 0 = a := by
  ext <;> simp

/-! ## The reals as the numbers -/

theorem exact_real (p : ℝ → ℝ → ℝ) : CMath.Exact (⟨Real.sqrt, p⟩ : CMath ℝ) :=
  fun x hx => ⟨Real.sqrt_nonneg x, Real.mul_self_sqrt hx⟩

theorem real_sqrt_of_sq {x r : ℝ} (hr : 0 ≤ r) (h : r * r = x) : Real.sqrt x = r := by
  rw [← h]
  exact Real.sqrt_mul_self hr

theorem Vec3.ne_zero_of_z {v : Vec3 K} (h : v.z ≠ 0) : v ≠ 0 := by
  intro e
  exact h (by rw [e]; rfl)

/-! ## The quadratic solver -/

theorem solveQuadratic_eq_none (m : CMath K) (a b c : K) :
    solveQuadratic m a b c = none ↔ b * b - 4 * a * c < 0 := by
  unfold solveQuadratic
  by_cases h : b * b - 4 * a * c < 0
  · simp [h]
  · by_cases h0 : b * b - 4 * a * c = 0 <;> simp [h, h0]

theorem sqrt_pos_of_pos (m : CMath K) (hm : m.Exact) {d : K} (hd : 0 < d) :
    0 < m.sqrt d := by
  obtain ⟨h1, h2⟩ := hm d hd.le
  rcases h1.lt_or_eq with h | h
  · exact h
  · rw [← h] at h2
    simp at h2
    exact absurd h2.symm hd.ne'

theorem solveQuadraticQ_ne_zero (m : CMath K) (hm : m.Exact) (a b c : K)
    (hd : 0 < b * b - 4 * a * c) : solveQuadraticQ m a b c ≠ 0 := by
  have hs := sqrt_pos_of_pos m hm hd
  unfold solveQuadraticQ
  split_ifs with hb
  · have : -0.5 * (b + m.sqrt (b * b - 4 * a * c)) < 0 := by
      norm_num
      linarith
    exact this.ne
  · have : 0 < -0.5 * (b - m.sqrt (b * b - 4 * a * c)) := by
      norm_num
      linarith
    exact this.ne'

theorem solveQuadraticQ_sq (m : CMath K) (hm : m.Exact) (a b c : K)
    (hd : 0 < b * b - 4 * a * c) :
    solveQuadraticQ m a b c * solveQuadraticQ m a b c + a * c
      = -b * solveQuadraticQ m a b c := by
  obtain ⟨-, h2⟩ := hm _ hd.le
  unfold solveQuadraticQ
  split_ifs with hb
  · norm_num
    linear_combination (1 / 4 : K) * h2
  · norm_num
    linear_combination (1 / 4 : K) * h2

theorem solveQuadratic_of_zero (m : CMath K) (a b c : K) (hd : b * b - 4 * a * c = 0) :
    solveQuadratic m a b c = some (-0.5 * b / a, -0.5 * b / a) := by
  unfold solveQuadratic
  simp [hd]

theorem solveQuadratic_of_pos (m : CMath K) (a b c : K) (hd : 0 < b * b - 4 * a * c) :
    solveQuadratic m a b c
      = some (solveQuadraticQ m a b c / a, c / solveQuadraticQ m a b c) := by
  unfold solveQuadratic solveQuadraticQ
  simp [not_lt.mpr hd.le, hd.ne']

/-- When `solveQuadratic` succeeds, its two outputs factor the polynomial. -/
theorem solveQuadratic_factor (m : CMath K) (hm : m.Exact) {a b c x0 x1 : K} (ha : a ≠ 0)
    (h : solveQuadratic m a b c = some (x0, x1)) (t : K) :
    a * t * t + b * t + c = a * (t - x0) * (t - x1) := by
  rcases lt_trichotomy (b * b - 4 * a * c) 0 with h1 | h0 | hd
  · rw [(solveQuadratic_eq_none m a b c).mpr h1] at h
    exact absurd h (by simp)
  · rw [solveQuadratic_of_zero m a b c h0] at h
    simp only [Option.some.injEq, Prod.mk.injEq] at h
    rw [← h.1, ← h.2]
    have hX : (-0.5 : K) * b / a = -b / (2 * a) := by
      norm_num
      field_simp
    have hc : c = b * b / (4 * a) := by
      field_simp
      linear_combination (-1 : K) * h0
    rw [hX, hc]
    field_simp
    ring
  · have hq := solveQuadraticQ_ne_zero m hm a b c hd
    have hq2 := solveQuadraticQ_sq m hm a b c hd
    rw [solveQuadratic_of_pos m a b c hd] at h
    simp only [Option.some.injEq, Prod.mk.injEq] at h
    obtain ⟨rfl, rfl⟩ := h
    have e : c / solveQuadraticQ m a b c = (-b - solveQuadraticQ m a b c) / a := by
      rw [div_eq_div_iff hq ha]
      linear_combination hq2
    rw [e]
    field_simp
    linear_combination hq2

/-! ## Ray-sphere intersection -/

theorem lenSq_nonneg (v : Vec3 K) : 0 ≤ lenSq v := by
  unfold lenSq dot
  nlinarith [mul_self_nonneg v.x, mul_self_nonneg v.y, mul_self_nonneg v.z]

theorem lenSq_pos {v : Vec3 K} (hv : v ≠ 0) : 0 < lenSq v := by
  rcases (lenSq_nonneg v).lt_or_eq with h | h
  · exact h
  · exfalso
    apply hv
    unfold lenSq dot at h
    have hx : v.x = 0 := by
      nlinarith [mul_self_nonneg v.x, mul_self_nonneg v.y, mul_self_nonneg v.z]
    have hy : v.y = 0 := by
      nlinarith [mul_self_nonneg v.x, mul_self_nonneg v.y, mul_self_nonneg v.z]
    have hz : v.z = 0 := by
      nlinarith [mul_self_nonneg v.x, mul_self_nonneg v.y, mul_self_nonneg v.z]
    ext <;> simp [hx, hy, hz]

/-- The equation of the ray and the sphere is the quadratic that `intersect`
hands to `solveQuadratic`. -/
theorem onSphere_iff (ray : Ray K) (s : Sphere K) (t : K) :
    onSphere ray s t ↔
      lenSq ray.direction * t * t + 2 * dot ray.direction (ray.origin - s.center) * t
        + (lenSq (ray.origin - s.center) - s.radius * s.radius) = 0 := by
  unfold onSphere lenSq dot
  simp only [Vec3.add_x, Vec3.add_y, Vec3.add_z, Vec3.sub_x, Vec3.sub_y, Vec3.sub_z,
    Vec3.scale_x, Vec3.scale_y, Vec3.scale_z]
  constructor <;> intro h <;> linear_combination h

/-- The shape of the result of `intersect`: either the equation has no root
and there is no hit, or its roots are `t0 ≤ t1` and the first positive one
of the two is returned. -/
theorem intersect_roots (m : CMath K) (hm : m.Exact) (ray : Ray K) (s : Sphere K)
    (hD : ray.direction ≠ 0) :
    (intersect m ray s = none ∧ ∀ t, ¬ onSphere ray s t) ∨
    ∃ t0 t1 : K, t0 ≤ t1 ∧ (∀ t, onSphere ray s t ↔ t = t0 ∨ t = t1) ∧
      intersect m ray s
        = if t0 > 0 then some t0 else if t1 > 0 then some t1 else none := by
  have ha : 0 < lenSq ray.direction := lenSq_pos hD
  rcases hsq : solveQuadratic m (lenSq ray.direction)
      (2 * dot ray.direction (ray.origin - s.center))
      (lenSq (ray.origin - s.center) - s.radius * s.radius) with _ | ⟨x0, x1⟩
  · left
    refine ⟨by simp [intersect, hsq], fun t ht => ?_⟩
    rw [onSphere_iff] at ht
    rw [solveQuadratic_eq_none] at hsq
    nlinarith [mul_self_nonneg (2 * lenSq ray.direction * t
      + 2 * dot ray.direction (ray.origin - s.center))]
  · right
    have hf := solveQuadratic_factor m hm ha.ne' hsq
    have hroot : ∀ t, onSphere ray s t ↔ t = x0 ∨ t = x1 := by
      intro t
      rw [onSphere_iff, hf t]
      constructor
      · intro h
        rcases mul_eq_zero.mp h with h | h
        · rcases mul_eq_zero.mp h with h | h
          · exact absurd h ha.ne'
          · exact Or.inl (sub_eq_zero.mp h)
        · exact Or.inr (sub_eq_zero.mp h)
      · rintro (rfl | rfl) <;> simp
    by_cases hx : x0 > x1
    · refine ⟨x1, x0, hx.le, fun t => ?_, by simp [intersect, hsq, hx]⟩
      rw [hroot t]
      exact Or.comm
    · exact ⟨x0, x1, not_lt.mp hx, hroot, by simp [intersect, hsq, hx]⟩

/-- In exact arithmetic (an ordered field with an exact square root; the
rounding of double is not modelled): for a ray with non-zero direction,
`intersect` reports a hit exactly when the equation `|O + t*D - C|^2 = r^2` has a root `t > 0`; the `t` it
returns is a strictly positive root and no strictly positive root is smaller;
and when there is no strictly positive root it reports no hit.  (The radius
may be any number: the hypothesis `r > 0` is not needed.) -/
theorem intersect_smallest_positive_root (m : CMath K) (hm : m.Exact) (ray : Ray K)
    (s : Sphere K) (hD : ray.direction ≠ 0) :
    ((intersect m ray s).isSome ↔ ∃ t, 0 < t ∧ onSphere ray s t) ∧
    (∀ t, intersect m ray s = some t →
      0 < t ∧ onSphere ray s t ∧ ∀ u, 0 < u → onSphere ray s u → t ≤ u) ∧
    ((¬ ∃ t, 0 < t ∧ onSphere ray s t) → intersect m ray s = none) := by
  rcases intersect_roots m hm ray s hD with ⟨hnone, hno⟩ | ⟨t0, t1, h01, hroot, hres⟩
  · refine ⟨?_, ?_, fun _ => hnone⟩
    · rw [hnone]
      simp only [Option.isSome_none, Bool.false_eq_true, false_iff]
      rintro ⟨t, -, ht⟩
      exact hno t ht
    · intro t ht
      rw [hnone] at ht
      exact absurd ht (by simp)
  · by_cases h0 : t0 > 0
    · have hres0 : intersect m ray s = some t0 := by rw [hres]; simp [h0]
      refine ⟨?_, ?_, ?_⟩
      · rw [hres0]
        simp only [Option.isSome_some, true_iff]
        exact ⟨t0, h0, (hroot t0).mpr (Or.inl rfl)⟩
      · intro t ht
        rw [hres0] at ht
        obtain rfl : t0 = t := by simpa using ht
        refine ⟨h0, (hroot _).mpr (Or.inl rfl), fun u _ hu => ?_⟩
        rcases (hroot u).mp hu with rfl | rfl
        · exact le_rfl
        · exact h01
      · intro hne
        exact absurd ⟨t0, h0, (hroot t0).mpr (Or.inl rfl)⟩ hne
    · by_cases h1 : t1 > 0
      · have hres1 : intersect m ray s = some t1 := by rw [hres]; simp [h0, h1]
        refine ⟨?_, ?_, ?_⟩
        · rw [hres1]
          simp only [Option.isSome_some, true_iff]
          exact ⟨t1, h1, (hroot t1).mpr (Or.inr rfl)⟩
        · intro t ht
          rw [hres1] at ht
          obtain rfl : t1 = t := by simpa using ht
          refine ⟨h1, (hroot _).mpr (Or.inr rfl), fun u hpos hu => ?_⟩
          rcases (hroot u).mp hu with rfl | rfl
          · exact absurd hpos h0
          · exact le_rfl
        · intro hne
          exact absurd ⟨t1, h1, (hroot t1).mpr (Or.inr rfl)⟩ hne
      · have hres2 : intersect m ray s = none := by rw [hres]; simp [h0, h1]
        refine ⟨?_, ?_, fun _ => hres2⟩
        · rw [hres2]
          simp only [Option.isSome_none, Bool.false_eq_true, false_iff]
          rintro ⟨t, hpos, ht⟩
          rcases (hroot t).mp ht with rfl | rfl
          · exact h0 hpos
          · exact h1 hpos
        · intro t ht
          rw [hres2] at ht
          exact absurd ht (by simp)

/-- The least positive root, at the ray from the origin along the z axis and
the unit sphere centred at (0,0,3). -/
theorem intersect_smallest_positive_root_witness :
    CMath.Exact (⟨Real.sqrt, Real.rpow⟩ : CMath ℝ) ∧ (⟨0, 0, 1⟩ : Vec3 ℝ) ≠ 0 ∧
    (((intersect (⟨Real.sqrt, Real.rpow⟩ : CMath ℝ) ⟨⟨0, 0, 0⟩, ⟨0, 0, 1⟩⟩
          ⟨⟨0, 0, 3⟩, 1⟩).isSome ↔
        ∃ t, 0 < t ∧ onSphere (⟨⟨0, 0, 0⟩, ⟨0, 0, 1⟩⟩ : Ray ℝ) ⟨⟨0, 0, 3⟩, 1⟩ t) ∧
      (∀ t, intersect (⟨Real.sqrt, Real.rpow⟩ : CMath ℝ) ⟨⟨0, 0, 0⟩, ⟨0, 0, 1⟩⟩
          ⟨⟨0, 0, 3⟩, 1⟩ = some t →
        0 < t ∧ onSphere (⟨⟨0, 0, 0⟩, ⟨0, 0, 1⟩⟩ : Ray ℝ) ⟨⟨0, 0, 3⟩, 1⟩ t ∧
          ∀ u, 0 < u → onSphere (⟨⟨0, 0, 0⟩, ⟨0, 0, 1⟩⟩ : Ray ℝ) ⟨⟨0, 0, 3⟩, 1⟩ u → t ≤ u) ∧
      ((¬ ∃ t, 0 < t ∧ onSphere (⟨⟨0, 0, 0⟩, ⟨0, 0, 1⟩⟩ : Ray ℝ) ⟨⟨0, 0, 3⟩, 1⟩ t) →
        intersect (⟨Real.sqrt, Real.rpow⟩ : CMath ℝ) ⟨⟨0, 0, 0⟩, ⟨0, 0, 1⟩⟩
          ⟨⟨0, 0, 3⟩, 1⟩ = none)) :=
  ⟨exact_real _, Vec3.ne_zero_of_z (by norm_num),
    intersect_smallest_positive_root _ (exact_real _) _ _ (Vec3.ne_zero_of_z (by norm_num))⟩

theorem Scene.intersectLoop_nil (m : CMath K) (ray : Ray K) (i : Nat)
    (o : Option (Nat × Object K)) (t : K) :
    Scene.intersectLoop m ray [] i o t = (o, t) := rfl

theorem Scene.intersectLoop_cons (m : CMath K) (ray : Ray K) (obj : Object K)
    (rest : List (Object K)) (i : Nat) (o : Option (Nat × Object K)) (t : K) :
    Scene.intersectLoop m ray (obj :: rest) i o t =
      match RayTracer.intersect m ray obj.geom with
      | some tt =>
        if tt < t ∨ o = none then
          Scene.intersectLoop m ray rest (i + 1) (some (i, obj)) (tt - bias)
        else
          Scene.intersectLoop m ray rest (i + 1) o t
      | none => Scene.intersectLoop m ray rest (i + 1) o t := rfl

theorem Scene.intersectLoop_paired (m : CMath K) (ray : Ray K) (objs : List (Object K)) :
    ∀ (rest pre : List (Object K)) (o : Option (Nat × Object K)) (t : K),
      objs = pre ++ rest → Scene.Paired m ray objs o t →
      Scene.Paired m ray objs (Scene.intersectLoop m ray rest pre.length o t).1
        (Scene.intersectLoop m ray rest pre.length o t).2 := by
  intro rest
  induction rest with
  | nil =>
    intro pre o t _ hinv
    exact hinv
  | cons obj rest ih =>
    intro pre o t hobjs hinv
    have hobjs2 : objs = (pre ++ [obj]) ++ rest := by simp [hobjs]
    have hlen : (pre ++ [obj]).length = pre.length + 1 := by simp
    have ih2 := ih (pre ++ [obj])
    rw [hlen] at ih2
    rw [Scene.intersectLoop_cons]
    rcases hi : RayTracer.intersect m ray obj.geom with _ | tt
    · exact ih2 o t hobjs2 hinv
    · by_cases hc : tt < t ∨ o = none
      · simp only [hc, if_true]
        apply ih2 _ _ hobjs2
        intro i ob hio
        simp only [Option.some.injEq, Prod.mk.injEq] at hio
        obtain ⟨rfl, rfl⟩ := hio
        refine ⟨?_, tt, hi, rfl⟩
        rw [hobjs, List.getElem?_append_right (le_refl _)]
        simp
      · simp only [hc, if_false]
        exact ih2 o t hobjs2 hinv

theorem Scene.intersectLoop_isSome (m : CMath K) (ray : Ray K) :
    ∀ (rest : List (Object K)) (i : Nat) (o : Option (Nat × Object K)) (t : K),
      (Scene.intersectLoop m ray rest i o t).1.isSome ↔
        (o.isSome ∨ ∃ obj ∈ rest, hits m ray obj) := by
  intro rest
  induction rest with
  | nil =>
    intro i o t
    simp [Scene.intersectLoop_nil]
  | cons obj rest ih =>
    intro i o t
    rw [Scene.intersectLoop_cons]
    rcases hi : RayTracer.intersect m ray obj.geom with _ | tt
    · simp only [ih, List.mem_cons, exists_eq_or_imp, hits, hi, Option.isSome_none,
        Bool.false_eq_true, false_or]
    · by_cases hc : tt < t ∨ o = none
      · simp only [hc, if_true, ih, Option.isSome_some, true_or, true_iff]
        exact Or.inr ⟨obj, List.mem_cons_self _ _, by simp [hits, hi]⟩
      · simp only [hc, if_false, ih]
        have ho : o.isSome := by
          rcases o with _ | p
          · exact absurd (Or.inr rfl) hc
          · rfl
        simp [ho]

/-- C3. `Scene::intersect` returns an object exactly when the ray hits some
object of `objs`; and whenever it returns a pointer, the pointee `o` is the
object of `objs` at the recorded position and the `t` it reports is the raw
hit distance `intersect(ray, o.geom)` minus the constant `0.000001`.  This
holds for every value `t` holds on entry. -/
theorem Scene.intersect_hit_iff_and_biased (m : CMath K) (s : Scene K) (ray : Ray K) (t : K) :
    ((s.intersect m ray t).1.isSome ↔ ∃ obj ∈ s.objs, hits m ray obj) ∧
    ∀ i o, (s.intersect m ray t).1 = some (i, o) →
      s.objs[i]? = some o ∧
      ∃ tt, RayTracer.intersect m ray o.geom = some tt ∧
        (s.intersect m ray t).2 = tt - 0.000001 := by
  constructor
  · unfold Scene.intersect
    rw [Scene.intersectLoop_isSome]
    simp
  · have h := Scene.intersectLoop_paired m ray s.objs s.objs [] none t (by simp)
      (fun i ob hio => absurd hio (by simp))
    exact h

/-- C2, the code at a scene of two unit spheres on the z axis, the first
centred at (0,0,3) and the second at (0,0,2.9999995), and the ray from the
origin along the axis.  The ray hits the first at distance 2 and the second
at distance 1.9999995, and `Scene::intersect` returns the first, whatever `t`
holds on entry: the second is compared with the biased distance 1.999999 of
the first. -/
theorem Scene.intersect_returns_farther (t : ℝ) :
    RayTracer.intersect (⟨Real.sqrt, Real.rpow⟩ : CMath ℝ) ⟨⟨0, 0, 0⟩, ⟨0, 0, 1⟩⟩
        ⟨⟨0, 0, 3⟩, 1⟩ = some 2 ∧
    RayTracer.intersect (⟨Real.sqrt, Real.rpow⟩ : CMath ℝ) ⟨⟨0, 0, 0⟩, ⟨0, 0, 1⟩⟩
        ⟨⟨0, 0, 2.9999995⟩, 1⟩ = some 1.9999995 ∧
    Scene.intersect (⟨Real.sqrt, Real.rpow⟩ : CMath ℝ)
        ⟨⟨0, 0, 0⟩, ⟨0, 0, 0⟩,
          [⟨⟨⟨0, 0, 3⟩, 1⟩, ⟨0, 0, 0, 0⟩⟩, ⟨⟨⟨0, 0, 2.9999995⟩, 1⟩, ⟨0, 0, 0, 0⟩⟩], []⟩
        ⟨⟨0, 0, 0⟩, ⟨0, 0, 1⟩⟩ t
      = (some (0, ⟨⟨⟨0, 0, 3⟩, 1⟩, ⟨0, 0, 0, 0⟩⟩), 1.999999) := by
  have h4 : Real.sqrt 4 = 2 := real_sqrt_of_sq (by norm_num) (by norm_num)
  have e1 : RayTracer.intersect (⟨Real.sqrt, Real.rpow⟩ : CMath ℝ) ⟨⟨0, 0, 0⟩, ⟨0, 0, 1⟩⟩
      ⟨⟨0, 0, 3⟩, 1⟩ = some 2 := by
    norm_num [RayTracer.intersect, solveQuadratic, lenSq, dot, h4]
  have e2 : RayTracer.intersect (⟨Real.sqrt, Real.rpow⟩ : CMath ℝ) ⟨⟨0, 0, 0⟩, ⟨0, 0, 1⟩⟩
      ⟨⟨0, 0, 2.9999995⟩, 1⟩ = some 1.9999995 := by
    norm_num [RayTracer.intersect, solveQuadratic, lenSq, dot, h4]
  refine ⟨e1, e2, ?_⟩
  simp only [Scene.intersect, Scene.intersectLoop, e1, e2, or_true, if_true]
  norm_num [bias]
  exact Option.some_ne_none _

/-! ## Scene::inshadow -/

/-- The loop of `Scene::inshadow` answers `true` exactly when some object is
hit at a raw distance whose biased value, squared, is below `ll`. -/
theorem Scene.inshadowLoop_iff (m : CMath K) (rayLight : Ray K) (ll : K) (objs : List (Object K)) :
    Scene.inshadowLoop m rayLight ll objs = true ↔
      ∃ obj ∈ objs, ∃ tt, RayTracer.intersect m rayLight obj.geom = some tt ∧
        (tt - bias) * (tt - bias) < ll := by
  induction objs with
  | nil => simp [Scene.inshadowLoop]
  | cons obj rest ih =>
    unfold Scene.inshadowLoop
    rcases hi : RayTracer.intersect m rayLight obj.geom with _ | tt
    · simp [ih, hi]
    · by_cases hc : (tt - bias) * (tt - bias) < ll
      · simp [hc, hi]
      · simp [hc, ih, hi]

theorem clamp_of_inUnit {v : Vec3 K} (h : inUnit v) : clamp v 0 1 = v := by
  obtain ⟨⟨hx0, hx1⟩, ⟨hy0, hy1⟩, ⟨hz0, hz1⟩⟩ := h
  unfold clamp
  ext <;> simp [*]

/-- A light that is in shadow leaves the accumulators as they are. -/
theorem Scene.lightingStep_shadowed (m : CMath K) (s : Scene K)
    (incidence normal rayDirection : Vec3 K) (mat : Material K) (acc : Accum K) (l : Light K)
    (hsh : s.inshadow m ⟨incidence, normalize m (l.pos - incidence)⟩ (l.pos - incidence) = true) :
    s.lightingStep m incidence normal rayDirection mat acc l = acc := by
  unfold Scene.lightingStep
  simp [hsh]

theorem Scene.foldl_lightingStep_shadowed (m : CMath K) (s : Scene K)
    (incidence normal rayDirection : Vec3 K) (mat : Material K) :
    ∀ (ls : List (Light K)) (acc : Accum K),
      (∀ l ∈ ls, s.inshadow m ⟨incidence, normalize m (l.pos - incidence)⟩
        (l.pos - incidence) = true) →
      ls.foldl (s.lightingStep m incidence normal rayDirection mat) acc = acc := by
  intro ls
  induction ls with
  | nil => intro acc _; rfl
  | cons l ls ih =>
    intro acc h
    rw [List.foldl_cons,
      Scene.lightingStep_shadowed m s incidence normal rayDirection mat acc l
        (h l (List.mem_cons_self _ _))]
    exact ih acc (fun l' hl' => h l' (List.mem_cons_of_mem _ hl'))

/-- The accumulators after one light that is not in shadow, when the diffuse
and the specular term that the step adds are (0,0,0): the old sum plus the
light's ambient term.  Only `x + 0 = x` is used. -/
theorem Scene.lightingStep_terms_zero (m : CMath K) (s : Scene K)
    (incidence normal rayDirection : Vec3 K) (mat : Material K) (acc : Accum K) (l : Light K)
    (hsh : s.inshadow m ⟨incidence, normalize m (l.pos - incidence)⟩ (l.pos - incidence) = false)
    (hdt : 0 < diffOf m incidence normal l →
      l.prop.diffuse.scale (diffOf m incidence normal l) * mat.diffuse = 0)
    (hst : 0 < diffOf m incidence normal l →
      0 < specularAOf m incidence normal rayDirection l → 0 < mat.shininess →
      l.prop.specular.scale (m.pow (specularAOf m incidence normal rayDirection l)
        mat.shininess) * mat.specular = 0) :
    s.lightingStep m incidence normal rayDirection mat acc l
      = ⟨acc.ambient + l.prop.ambient * mat.ambient, acc.diffuse, acc.specular⟩ := by
  unfold diffOf at hdt hst
  unfold specularAOf at hst
  unfold Scene.lightingStep
  simp only [hsh, if_true, gt_iff_lt]
  by_cases h1 : 0 < dot (normalize m (l.pos - incidence)) normal
  · simp only [h1, if_true, hdt h1, Vec3.vadd_zero]
    by_cases h2 : 0 < dot (reflect (-(normalize m (l.pos - incidence))) normal)
        (-rayDirection) ∧ 0 < mat.shininess
    · simp only [h2, and_self, if_true, hst h1 h2.1 h2.2, Vec3.vadd_zero]
    · simp only [h2, if_false]
  · simp only [h1, if_false]

/-- C5, amended. For a scene in which exactly one light `l` is not in shadow
at the shading point (it is the only light, or the lights `pre` before it and
`post` after it in `lights` are all in shadow), `lighting` returns
`clamp(scene.ambience*mat.ambient + light.prop.ambient*mat.ambient, 0, 1)`
for every material, normal and ray direction for which the diffuse term
`light.diffuse*diff*mat.diffuse` and the specular term
`light.specular*pow(specularA, shininess)*mat.specular`, where the code adds
them, are (0,0,0); this is the unclamped sum whenever every channel of the
sum lies in `[0, 1]`.  For a material whose diffuse and specular colours are
(0,0,0) the two terms are (0,0,0) whenever `light.diffuse*diff` and
`light.specular*pow(specularA, shininess)` are finite; an infinite factor
makes the product with 0 a NaN, which the two hypotheses on the terms
exclude.  The proof adds (0,0,0) and cancels nothing. -/
theorem Scene.lighting_ambient_only (m : CMath K) (s : Scene K)
    (incidence normal rayDirection : Vec3 K) (mat : Material K) (pre post : List (Light K))
    (l : Light K) (hl : s.lights = pre ++ l :: post)
    (hothers : ∀ l2 ∈ pre ++ post,
      s.inshadow m ⟨incidence, normalize m (l2.pos - incidence)⟩ (l2.pos - incidence) = true)
    (hsh : s.inshadow m ⟨incidence, normalize m (l.pos - incidence)⟩ (l.pos - incidence) = false)
    (hdt : 0 < diffOf m incidence normal l →
      l.prop.diffuse.scale (diffOf m incidence normal l) * mat.diffuse = 0)
    (hst : 0 < diffOf m incidence normal l →
      0 < specularAOf m incidence normal rayDirection l → 0 < mat.shininess →
      l.prop.specular.scale (m.pow (specularAOf m incidence normal rayDirection l)
        mat.shininess) * mat.specular = 0) :
    s.lighting m incidence normal rayDirection mat
        = clamp (s.ambience * mat.ambient + l.prop.ambient * mat.ambient) 0 1 ∧
    (inUnit (s.ambience * mat.ambient + l.prop.ambient * mat.ambient) →
      s.lighting m incidence normal rayDirection mat
        = s.ambience * mat.ambient + l.prop.ambient * mat.ambient) := by
  have hpre : ∀ l2 ∈ pre, s.inshadow m ⟨incidence, normalize m (l2.pos - incidence)⟩
      (l2.pos - incidence) = true :=
    fun l2 h2 => hothers l2 (List.mem_append_left _ h2)
  have hpost : ∀ l2 ∈ post, s.inshadow m ⟨incidence, normalize m (l2.pos - incidence)⟩
      (l2.pos - incidence) = true :=
    fun l2 h2 => hothers l2 (List.mem_append_right _ h2)
  have key : s.lighting m incidence normal rayDirection mat
      = clamp (s.ambience * mat.ambient + l.prop.ambient * mat.ambient) 0 1 := by
    unfold Scene.lighting
    simp only [hl, List.foldl_append, List.foldl_cons]
    rw [Scene.foldl_lightingStep_shadowed m s incidence normal rayDirection mat pre _ hpre,
      Scene.foldl_lightingStep_shadowed m s incidence normal rayDirection mat post _ hpost,
      Scene.lightingStep_terms_zero m s incidence normal rayDirection mat _ l hsh hdt hst]
    congr 1
    ext <;> simp
  exact ⟨key, fun h => by rw [key, clamp_of_inUnit h]⟩

/-- C5, amended, at a scene without objects whose ambience and single light
make the sum (0.3,0.3,0.3); the light faces the surface, so the diffuse term
is added. -/
theorem Scene.lighting_ambient_only_witness :
    Scene.lighting (⟨Real.sqrt, Real.rpow⟩ : CMath ℝ)
        ⟨⟨0, 0, 0⟩, ⟨0.1, 0.1, 0.1⟩, [], [⟨⟨0, 0, 1⟩, ⟨⟨0.2, 0.2, 0.2⟩, ⟨1, 1, 1⟩, ⟨1, 1, 1⟩⟩⟩]⟩
        ⟨0, 0, 0⟩ ⟨0, 0, 1⟩ ⟨0, 0, 1⟩ ⟨⟨1, 1, 1⟩, 0, 0, 5⟩
      = clamp ((⟨0.1, 0.1, 0.1⟩ : Vec3 ℝ) * ⟨1, 1, 1⟩ + ⟨0.2, 0.2, 0.2⟩ * ⟨1, 1, 1⟩) 0 1 ∧
    (inUnit ((⟨0.1, 0.1, 0.1⟩ : Vec3 ℝ) * ⟨1, 1, 1⟩ + ⟨0.2, 0.2, 0.2⟩ * ⟨1, 1, 1⟩) →
      Scene.lighting (⟨Real.sqrt, Real.rpow⟩ : CMath ℝ)
        ⟨⟨0, 0, 0⟩, ⟨0.1, 0.1, 0.1⟩, [], [⟨⟨0, 0, 1⟩, ⟨⟨0.2, 0.2, 0.2⟩, ⟨1, 1, 1⟩, ⟨1, 1, 1⟩⟩⟩]⟩
        ⟨0, 0, 0⟩ ⟨0, 0, 1⟩ ⟨0, 0, 1⟩ ⟨⟨1, 1, 1⟩, 0, 0, 5⟩
      = (⟨0.1, 0.1, 0.1⟩ : Vec3 ℝ) * ⟨1, 1, 1⟩ + ⟨0.2, 0.2, 0.2⟩ * ⟨1, 1, 1⟩) :=
  Scene.lighting_ambient_only (⟨Real.sqrt, Real.rpow⟩ : CMath ℝ)
    ⟨⟨0, 0, 0⟩, ⟨0.1, 0.1, 0.1⟩, [], [⟨⟨0, 0, 1⟩, ⟨⟨0.2, 0.2, 0.2⟩, ⟨1, 1, 1⟩, ⟨1, 1, 1⟩⟩⟩]⟩
    ⟨0, 0, 0⟩ ⟨0, 0, 1⟩ ⟨0, 0, 1⟩ ⟨⟨1, 1, 1⟩, 0, 0, 5⟩ [] []
    ⟨⟨0, 0, 1⟩, ⟨⟨0.2, 0.2, 0.2⟩, ⟨1, 1, 1⟩, ⟨1, 1, 1⟩⟩⟩ rfl
    (fun l2 h2 => absurd h2 (by simp)) rfl
    (fun _ => by ext <;> simp) (fun _ _ _ => by ext <;> simp)

/-- C5 fails as stated: with ambience (1,1,1), one unoccluded light of ambient
colour (1,1,1) and a material of ambient colour (1,1,1) without diffuse and
specular colour, the sum is (2,2,2) and `lighting` returns (1,1,1). -/
theorem Scene.lighting_ambient_clamped :
    Scene.inshadow (⟨Real.sqrt, Real.rpow⟩ : CMath ℝ)
        ⟨⟨0, 0, 0⟩, ⟨1, 1, 1⟩, [], [⟨⟨0, 0, 1⟩, ⟨⟨1, 1, 1⟩, ⟨1, 1, 1⟩, ⟨1, 1, 1⟩⟩⟩]⟩
        ⟨⟨0, 0, 0⟩, normalize ⟨Real.sqrt, Real.rpow⟩ (⟨0, 0, 1⟩ - ⟨0, 0, 0⟩)⟩
        (⟨0, 0, 1⟩ - ⟨0, 0, 0⟩) = false ∧
    Scene.lighting (⟨Real.sqrt, Real.rpow⟩ : CMath ℝ)
        ⟨⟨0, 0, 0⟩, ⟨1, 1, 1⟩, [], [⟨⟨0, 0, 1⟩, ⟨⟨1, 1, 1⟩, ⟨1, 1, 1⟩, ⟨1, 1, 1⟩⟩⟩]⟩
        ⟨0, 0, 0⟩ ⟨0, 0, 1⟩ ⟨0, 0, 1⟩ ⟨⟨1, 1, 1⟩, 0, 0, 0⟩ = ⟨1, 1, 1⟩ ∧
    (⟨1, 1, 1⟩ : Vec3 ℝ) * ⟨1, 1, 1⟩ + ⟨1, 1, 1⟩ * ⟨1, 1, 1⟩ = ⟨2, 2, 2⟩ ∧
    (⟨1, 1, 1⟩ : Vec3 ℝ) ≠ ⟨2, 2, 2⟩ := by
  refine ⟨rfl, ?_, ?_, ?_⟩
  · simp only [Scene.lighting, Scene.lightingStep, List.foldl_cons, List.foldl_nil,
      Scene.inshadow, Scene.inshadowLoop, if_true]
    split_ifs <;> ext <;> norm_num [clamp]
  · ext <;> norm_num
  · intro h
    have hx := congrArg Vec3.x h
    norm_num at hx

theorem Scene.cast_of_miss (m : CMath K) (s : Scene K) (ray : Ray K) (t : K)
    (hmiss : ∀ obj ∈ s.objs, ¬ hits m ray obj) : s.cast m ray t = s.bg := by
  unfold Scene.cast
  rcases hr : s.intersect m ray t with ⟨_ | ⟨i, o⟩, t2⟩
  · rfl
  · have hs := (Scene.intersectLoop_isSome m ray s.objs 0 none t).mp
      (by unfold Scene.intersect at hr; rw [hr]; rfl)
    rcases hs with hs | ⟨obj, hobj, hh⟩
    · exact absurd hs (by simp)
    · exact absurd hh (hmiss obj hobj)

theorem lrint_half_odd [FloorRing K] : lrint (25.5 : K) = 26 := by
  have hf : Int.floor (25.5 : K) = 25 := by
    rw [Int.floor_eq_iff]
    constructor <;> norm_num
  unfold lrint
  simp only [hf]
  norm_num

/-- C7. For every scene and every ray that hits no object of `objs`,
`Scene::cast` returns the background colour `bg`, whatever the lights, the
ambience and the entry value of `t` are; in particular it does so for every
ray when `objs` is empty.  With bg = (0.1,0.1,0.1), ambience =
(0.15,0.15,0.15), no objects and no lights every ray gets (0.1,0.1,0.1), and
`SavePPM` writes each channel as `lrint(0.1*255) = 26`. -/
theorem Scene.cast_miss_returns_bg [FloorRing K] (m : CMath K) :
    (∀ (s : Scene K) (ray : Ray K) (t : K),
      (∀ obj ∈ s.objs, ¬ hits m ray obj) → s.cast m ray t = s.bg) ∧
    (∀ (bg ambience : Vec3 K) (lights : List (Light K)) (ray : Ray K) (t : K),
      Scene.cast m ⟨bg, ambience, [], lights⟩ ray t = bg) ∧
    (∀ (ray : Ray K) (t : K),
      Scene.cast m ⟨⟨0.1, 0.1, 0.1⟩, ⟨0.15, 0.15, 0.15⟩, [], []⟩ ray t = ⟨0.1, 0.1, 0.1⟩ ∧
      ppmPixel (Scene.cast m ⟨⟨0.1, 0.1, 0.1⟩, ⟨0.15, 0.15, 0.15⟩, [], []⟩ ray t)
        = (26, 26, 26)) ∧
    lrint ((0.1 : K) * 255) = 26 := by
  have h255 : (0.1 : K) * 255 = 25.5 := by norm_num
  refine ⟨fun s ray t h => Scene.cast_of_miss m s ray t h, fun _ _ _ _ _ => rfl,
    fun ray t => ⟨rfl, ?_⟩, ?_⟩
  · have e : Scene.cast m ⟨⟨0.1, 0.1, 0.1⟩, ⟨0.15, 0.15, 0.15⟩, [], []⟩ ray t
        = ⟨0.1, 0.1, 0.1⟩ := rfl
    rw [e]
    simp only [ppmPixel, Vec3.scale, h255, lrint_half_odd]
  · rw [h255]
    exact lrint_half_odd

/-- C7, at the unit sphere centred at (0,0,3) and the ray from the origin
with direction (0,0,-1), which misses it. -/
theorem Scene.cast_miss_returns_bg_witness :
    (∀ obj ∈ [(⟨⟨⟨0, 0, 3⟩, 1⟩, ⟨⟨1, 1, 1⟩, 0, 0, 0⟩⟩ : Object ℝ)],
      ¬ hits (⟨Real.sqrt, Real.rpow⟩ : CMath ℝ) ⟨⟨0, 0, 0⟩, ⟨0, 0, -1⟩⟩ obj) ∧
    Scene.cast (⟨Real.sqrt, Real.rpow⟩ : CMath ℝ)
        ⟨⟨0.1, 0.1, 0.1⟩, ⟨1, 1, 1⟩, [⟨⟨⟨0, 0, 3⟩, 1⟩, ⟨⟨1, 1, 1⟩, 0, 0, 0⟩⟩],
          [⟨⟨0, 0, 0⟩, ⟨⟨1, 1, 1⟩, 0, 0⟩⟩]⟩
        ⟨⟨0, 0, 0⟩, ⟨0, 0, -1⟩⟩ 0 = ⟨0.1, 0.1, 0.1⟩ := by
  have h4 : Real.sqrt 4 = 2 := real_sqrt_of_sq (by norm_num) (by norm_num)
  have hmiss : ∀ obj ∈ [(⟨⟨⟨0, 0, 3⟩, 1⟩, ⟨⟨1, 1, 1⟩, 0, 0, 0⟩⟩ : Object ℝ)],
      ¬ hits (⟨Real.sqrt, Real.rpow⟩ : CMath ℝ) ⟨⟨0, 0, 0⟩, ⟨0, 0, -1⟩⟩ obj := by
    intro obj hobj
    rw [List.mem_singleton] at hobj
    subst hobj
    have e : RayTracer.intersect (⟨Real.sqrt, Real.rpow⟩ : CMath ℝ)
        ⟨⟨0, 0, 0⟩, ⟨0, 0, -1⟩⟩ ⟨⟨0, 0, 3⟩, 1⟩ = none := by
      norm_num [RayTracer.intersect, solveQuadratic, lenSq, dot, h4]
    simp [hits, e]
  exact ⟨hmiss, (Scene.cast_miss_returns_bg (⟨Real.sqrt, Real.rpow⟩ : CMath ℝ)).1
    ⟨⟨0.1, 0.1, 0.1⟩, ⟨1, 1, 1⟩, [⟨⟨⟨0, 0, 3⟩, 1⟩, ⟨⟨1, 1, 1⟩, 0, 0, 0⟩⟩],
      [⟨⟨0, 0, 0⟩, ⟨⟨1, 1, 1⟩, 0, 0⟩⟩]⟩ ⟨⟨0, 0, 0⟩, ⟨0, 0, -1⟩⟩ 0 hmiss⟩

/-! ## vectornd -/

theorem rowMajorIndex_cons (s p : Nat) (ss ps : List Nat) :
    rowMajorIndex (s :: ss) (p :: ps) = p * ss.prod + rowMajorIndex ss ps := by
  unfold rowMajorIndex
  simp [List.range_succ_eq_map, List.map_map, Function.comp_def]

theorem rowMajorIndex_nil (ps : List Nat) : rowMajorIndex [] ps = 0 := by
  simp [rowMajorIndex]

theorem inBounds_cons {s p : Nat} {ss ps : List Nat} :
    inBounds (s :: ss) (p :: ps) ↔ p < s ∧ inBounds ss ps := by
  unfold inBounds
  constructor
  · intro h
    refine ⟨(h 0 (by simp)).2, fun d hd => ?_⟩
    simpa using h (d + 1) (by simpa using hd)
  · rintro ⟨h0, h⟩ d hd
    rcases d with _ | d
    · simpa using h0
    · simpa using h d (by simpa using hd)

theorem not_inBounds_iff (shape pos : List Nat) :
    ¬ inBounds shape pos ↔
      ∃ d, d < shape.length ∧ ¬ (0 ≤ pos.getD d 0 ∧ pos.getD d 0 < shape.getD d 0) := by
  unfold inBounds
  push_neg
  rfl

/-- In bounds, the row-major index is below the number of cells. -/
theorem rowMajorIndex_lt_prod :
    ∀ (ss ps : List Nat), ss.length = ps.length → inBounds ss ps →
      rowMajorIndex ss ps < ss.prod := by
  intro ss
  induction ss with
  | nil =>
    intro ps _ _
    simp [rowMajorIndex_nil]
  | cons s ss ih =>
    intro ps hlen hin
    rcases ps with _ | ⟨p, ps⟩
    · simp at hlen
    · rw [inBounds_cons] at hin
      have h := ih ps (by simpa using hlen) hin.2
      rw [rowMajorIndex_cons, List.prod_cons]
      calc p * ss.prod + rowMajorIndex ss ps
          < p * ss.prod + ss.prod := by omega
        _ = (p + 1) * ss.prod := by ring
        _ ≤ s * ss.prod := Nat.mul_le_mul_right _ hin.1

/-- While the running value stays below `2 ^ w`, the loop of `index` computes
the Horner form of the row-major index. -/
theorem vectornd.indexLoop_eq (w : Nat) :
    ∀ (ss ps : List Nat) (i : Nat), ss.length = ps.length → inBounds ss ps →
      i * ss.prod + rowMajorIndex ss ps < 2 ^ w →
      vectornd.indexLoop w ss ps i = some (i * ss.prod + rowMajorIndex ss ps) := by
  intro ss
  induction ss with
  | nil =>
    intro ps i hlen _ _
    rcases ps with _ | ⟨p, ps⟩
    · simp [vectornd.indexLoop, rowMajorIndex_nil]
    · simp at hlen
  | cons s ss ih =>
    intro ps i hlen hin hlt
    rcases ps with _ | ⟨p, ps⟩
    · simp at hlen
    · rw [inBounds_cons] at hin
      have hpos : 0 < ss.prod :=
        Nat.lt_of_le_of_lt (Nat.zero_le _) (rowMajorIndex_lt_prod ss ps (by simpa using hlen) hin.2)
      rw [rowMajorIndex_cons, List.prod_cons] at hlt
      have hval : (i * s + p) * ss.prod + rowMajorIndex ss ps
          = i * (s * ss.prod) + (p * ss.prod + rowMajorIndex ss ps) := by ring
      have hsmall : i * s + p < 2 ^ w := by
        have h1 : i * s + p ≤ (i * s + p) * ss.prod := Nat.le_mul_of_pos_right _ hpos
        omega
      unfold vectornd.indexLoop
      simp only [ge_iff_le, Nat.zero_le, not_true_eq_false, if_false, hin.1, not_true_eq_false]
      rw [Nat.mod_eq_of_lt hsmall, ih ps (i * s + p) (by simpa using hlen) hin.2 (by omega),
        rowMajorIndex_cons, List.prod_cons, hval]

theorem vectornd.indexLoop_eq_none_iff (w : Nat) :
    ∀ (ss ps : List Nat) (i : Nat), ss.length = ps.length →
      (vectornd.indexLoop w ss ps i = none ↔ ¬ inBounds ss ps) := by
  intro ss
  induction ss with
  | nil =>
    intro ps i hlen
    rcases ps with _ | ⟨p, ps⟩
    · simp [vectornd.indexLoop, inBounds]
    · simp at hlen
  | cons s ss ih =>
    intro ps i hlen
    rcases ps with _ | ⟨p, ps⟩
    · simp at hlen
    · rw [inBounds_cons]
      unfold vectornd.indexLoop
      by_cases hp : p < s
      · simp only [ge_iff_le, Nat.zero_le, not_true_eq_false, if_false, hp, true_and]
        exact ih ps _ (by simpa using hlen)
      · simp [hp]

theorem vectornd.foldl_flatten (w : Nat) :
    ∀ (l : List Nat) (a : Nat),
      l.foldl (fun i r => (i * r) % 2 ^ w) (a % 2 ^ w) = (a * l.prod) % 2 ^ w := by
  intro l
  induction l with
  | nil => intro a; simp
  | cons r rest ih =>
    intro a
    rw [List.foldl_cons, ih, List.prod_cons, Nat.mul_assoc, Nat.mod_mul_mod]

/-- When the number of cells fits in `std::size_t`, `flatten` is the product
of the sizes. -/
theorem vectornd.flatten_eq_prod (w : Nat) (size : List Nat) (h : size.prod < 2 ^ w) :
    vectornd.flatten w size = size.prod := by
  unfold vectornd.flatten
  rcases size with _ | ⟨r, rest⟩
  · simp
  · rw [List.prod_cons] at h ⊢
    rw [List.foldl_cons, Nat.one_mul, vectornd.foldl_flatten, Nat.mod_eq_of_lt h]

/-- In bounds and without wrap-around, `index` is the row-major index and
lies below the number of cells. -/
theorem vectornd.index_of_inBounds {T : Type} (w : Nat) (v : vectornd T) (pos : List Nat)
    (hD : pos.length = v.m_size.length) (hin : inBounds v.m_size pos)
    (hfit : v.m_size.prod < 2 ^ w) :
    v.index w pos = some (rowMajorIndex v.m_size pos) ∧
      rowMajorIndex v.m_size pos < v.m_size.prod := by
  have hlt := rowMajorIndex_lt_prod v.m_size pos hD.symm hin
  have h := vectornd.indexLoop_eq w v.m_size pos 0 hD.symm hin (by omega)
  simp only [Nat.zero_mul, Nat.zero_add] at h
  exact ⟨h, hlt⟩

/-- C8, amended. For every buffer shape whose number of cells is below
`2 ^ w`, `w` being the width of `std::size_t`, and every coordinate tuple
`pos` with `pos[d] < s_d` for all `d`, `vectornd::index(pos)` equals the
row-major linear index: the sum over `d` of `pos[d]` times the product of the
sizes of all later dimensions.  For shape (3,4,5) and `w ≥ 6`:
(0,0,0) -> 0, (0,0,1) -> 1, (0,1,0) -> 5, (1,0,0) -> 20. -/
theorem vectornd.index_eq_rowMajor (w : Nat) :
    (∀ (T : Type) (v : vectornd T) (pos : List Nat),
      pos.length = v.m_size.length → inBounds v.m_size pos → v.m_size.prod < 2 ^ w →
      v.index w pos = some (rowMajorIndex v.m_size pos)) ∧
    (6 ≤ w → ∀ (T : Type) (a3 : vectornd T), a3.m_size = [3, 4, 5] →
      a3.index w [0, 0, 0] = some 0 ∧ a3.index w [0, 0, 1] = some 1 ∧
      a3.index w [0, 1, 0] = some 5 ∧ a3.index w [1, 0, 0] = some (4 * 5)) := by
  refine ⟨fun T v pos hD hin hfit => (vectornd.index_of_inBounds w v pos hD hin hfit).1, ?_⟩
  intro hw T a3 hs
  have h64 : 2 ^ 6 ≤ 2 ^ w := Nat.pow_le_pow_right (by norm_num) hw
  have hfit : a3.m_size.prod < 2 ^ w := by
    rw [hs]
    simp only [List.prod_cons, List.prod_nil]
    omega
  have hb : ∀ p0 p1 p2 : Nat, p0 < 3 → p1 < 4 → p2 < 5 → inBounds a3.m_size [p0, p1, p2] := by
    intro p0 p1 p2 h0 h1 h2
    rw [hs, inBounds_cons, inBounds_cons, inBounds_cons]
    exact ⟨h0, h1, h2, fun d hd => absurd hd (by simp)⟩
  have hl : ∀ p0 p1 p2 : Nat, [p0, p1, p2].length = a3.m_size.length := by
    intro p0 p1 p2
    rw [hs]
    rfl
  have e : ∀ p0 p1 p2 : Nat, p0 < 3 → p1 < 4 → p2 < 5 →
      a3.index w [p0, p1, p2] = some (p0 * 20 + (p1 * 5 + (p2 * 1 + 0))) := by
    intro p0 p1 p2 h0 h1 h2
    rw [(vectornd.index_of_inBounds w a3 _ (hl p0 p1 p2) (hb p0 p1 p2 h0 h1 h2) hfit).1, hs,
      rowMajorIndex_cons, rowMajorIndex_cons, rowMajorIndex_cons, rowMajorIndex_nil]
    simp
  exact ⟨e 0 0 0 (by omega) (by omega) (by omega), e 0 0 1 (by omega) (by omega) (by omega),
    e 0 1 0 (by omega) (by omega) (by omega), e 1 0 0 (by omega) (by omega) (by omega)⟩

/-- C8 amended, at the buffer of `main`, shape (480, 640), and the pixel
(479, 639), with a 64-bit `std::size_t`. -/
theorem vectornd.index_eq_rowMajor_witness :
    vectornd.index 64 (vectornd.create 64 [480, 640] (0 : Nat)) [479, 639]
      = some (rowMajorIndex [480, 640] [479, 639]) ∧
    rowMajorIndex [480, 640] [479, 639] = 479 * 640 + 639 :=
  ⟨(vectornd.index_eq_rowMajor 64).1 Nat (vectornd.create 64 [480, 640] 0) [479, 639] rfl
    (by
      intro d hd
      have hd2 : d < 2 := hd
      interval_cases d <;> simp [vectornd.create])
    (by simp [vectornd.create]),
    by rw [rowMajorIndex_cons, rowMajorIndex_cons, rowMajorIndex_nil]; simp⟩

/-- C8 fails as stated: with a 64-bit `std::size_t`, shape (2^33, 2^32) and
the in-bounds coordinate (2^32, 0), the row-major index is 2^64 and `index`
returns 0. -/
theorem vectornd.index_wraps :
    inBounds [8589934592, 4294967296] [4294967296, 0] ∧
    vectornd.index 64 (vectornd.create 64 [8589934592, 4294967296] (0 : Nat)) [4294967296, 0]
      = some 0 ∧
    rowMajorIndex [8589934592, 4294967296] [4294967296, 0] = 18446744073709551616 := by
  refine ⟨?_, ?_, ?_⟩
  · rw [inBounds_cons, inBounds_cons]
    exact ⟨by norm_num, by norm_num, fun d hd => absurd hd (by simp)⟩
  · simp [vectornd.index, vectornd.create, vectornd.indexLoop]
  · rw [rowMajorIndex_cons, rowMajorIndex_cons, rowMajorIndex_nil]
    simp

/-- C9, amended. For every buffer shape and every coordinate tuple `pos`,
`vectornd::index(pos)` faults exactly when some component violates
`0 ≤ pos[d] < shape[d]`, and when all components are in range it returns an
index.  `at(pos)`, and with it `operator[](pos)`, faults under the same
condition when the storage has the length the constructor gives it and the
number of cells of the shape is below `2 ^ w`, `w` being the width of
`std::size_t`. -/
theorem vectornd.index_faults_iff {T : Type} (w : Nat) (v : vectornd T) (pos : List Nat)
    (hD : pos.length = v.m_size.length) :
    (v.index w pos = none ↔
      ∃ d, d < v.m_size.length ∧ ¬ (0 ≤ pos.getD d 0 ∧ pos.getD d 0 < v.m_size.getD d 0)) ∧
    (inBounds v.m_size pos → ∃ i, v.index w pos = some i) ∧
    (v.data.length = vectornd.flatten w v.m_size → v.m_size.prod < 2 ^ w →
      (v.atPos w pos = none ↔
        ∃ d, d < v.m_size.length ∧
          ¬ (0 ≤ pos.getD d 0 ∧ pos.getD d 0 < v.m_size.getD d 0))) := by
  have hnone : v.index w pos = none ↔ ¬ inBounds v.m_size pos :=
    vectornd.indexLoop_eq_none_iff w v.m_size pos 0 hD.symm
  refine ⟨by rw [hnone, not_inBounds_iff], fun hin => ?_, fun hlen hfit => ?_⟩
  · rcases h : v.index w pos with _ | i
    · exact absurd hin (hnone.mp h)
    · exact ⟨i, rfl⟩
  · rw [← not_inBounds_iff]
    by_cases hin : inBounds v.m_size pos
    · obtain ⟨hi, hlt⟩ := vectornd.index_of_inBounds w v pos hD hin hfit
      rw [← vectornd.flatten_eq_prod w v.m_size hfit, ← hlen] at hlt
      unfold vectornd.atPos
      rw [hi]
      simp [hin, hlt]
    · unfold vectornd.atPos
      rw [hnone.mpr hin]
      simp [hin]

/-- C9 amended, at the buffer of `main`, shape (480, 640), and the
coordinate (480, 0), with a 64-bit `std::size_t`. -/
theorem vectornd.index_faults_iff_witness :
    (vectornd.index 64 (vectornd.create 64 [480, 640] (0 : Nat)) [480, 0] = none ↔
      ∃ d, d < [480, 640].length ∧
        ¬ (0 ≤ [480, 0].getD d 0 ∧ [480, 0].getD d 0 < [480, 640].getD d 0)) ∧
    vectornd.index 64 (vectornd.create 64 [480, 640] (0 : Nat)) [480, 0] = none :=
  ⟨(vectornd.index_faults_iff 64 (vectornd.create 64 [480, 640] (0 : Nat)) [480, 0] rfl).1,
    by simp [vectornd.index, vectornd.create, vectornd.indexLoop]⟩

/-- C9 fails as stated for `at`: with a 64-bit `std::size_t` the constructor
gives the shape (2^33, 2^32) a storage of `flatten = 0` cells; the coordinate
(0,0) is in bounds, `index` returns 0 and `at` faults. -/
theorem vectornd.at_faults_in_bounds :
    inBounds [8589934592, 4294967296] [0, 0] ∧
    vectornd.flatten 64 [8589934592, 4294967296] = 0 ∧
    vectornd.index 64 (vectornd.create 64 [8589934592, 4294967296] (0 : Nat)) [0, 0]
      = some 0 ∧
    vectornd.atPos 64 (vectornd.create 64 [8589934592, 4294967296] (0 : Nat)) [0, 0]
      = none := by
  refine ⟨?_, ?_, ?_, ?_⟩
  · rw [inBounds_cons, inBounds_cons]
    exact ⟨by norm_num, by norm_num, fun d hd => absurd hd (by simp)⟩
  · simp [vectornd.flatten]
  · simp [vectornd.index, vectornd.create, vectornd.indexLoop]
  · simp [vectornd.atPos, vectornd.index, vectornd.create, vectornd.indexLoop, vectornd.flatten]

/-! ## The quadratic solver: roots -/

/-- In exact arithmetic (an ordered field with an exact square root; the
rounding of double is not modelled): for `a ≠ 0`, `solveQuadratic` fails
exactly when the discriminant
`b*b - 4*a*c` is negative and succeeds otherwise; when the discriminant is
positive the divisor `q` is not zero and the outputs are `q / a` and `c / q`;
the outputs `x0`, `x1` are exactly the roots of `a*x^2 + b*x + c = 0`, and
both are `-b/(2a)` when the discriminant is 0. -/
theorem solveQuadratic_roots (m : CMath K) (hm : m.Exact) (a b c : K) (ha : a ≠ 0) :
    (solveQuadratic m a b c = none ↔ b * b - 4 * a * c < 0) ∧
    (0 ≤ b * b - 4 * a * c → ∃ x0 x1, solveQuadratic m a b c = some (x0, x1)) ∧
    (0 < b * b - 4 * a * c →
      solveQuadraticQ m a b c ≠ 0 ∧
      solveQuadratic m a b c
        = some (solveQuadraticQ m a b c / a, c / solveQuadraticQ m a b c)) ∧
    (∀ x0 x1, solveQuadratic m a b c = some (x0, x1) →
      (∀ x, a * x * x + b * x + c = 0 ↔ x = x0 ∨ x = x1) ∧
      (b * b - 4 * a * c = 0 → x0 = -b / (2 * a) ∧ x1 = -b / (2 * a))) := by
  refine ⟨solveQuadratic_eq_none m a b c, fun hd => ?_,
    fun hd => ⟨solveQuadraticQ_ne_zero m hm a b c hd, solveQuadratic_of_pos m a b c hd⟩,
    fun x0 x1 h => ⟨fun x => ?_, fun h0 => ?_⟩⟩
  · rcases h : solveQuadratic m a b c with _ | ⟨x0, x1⟩
    · exact absurd ((solveQuadratic_eq_none m a b c).mp h) (not_lt.mpr hd)
    · exact ⟨x0, x1, rfl⟩
  · rw [solveQuadratic_factor m hm ha h x]
    constructor
    · intro hx
      rcases mul_eq_zero.mp hx with hx | hx
      · rcases mul_eq_zero.mp hx with hx | hx
        · exact absurd hx ha
        · exact Or.inl (sub_eq_zero.mp hx)
      · exact Or.inr (sub_eq_zero.mp hx)
    · rintro (rfl | rfl) <;> simp
  · rw [solveQuadratic_of_zero m a b c h0] at h
    simp only [Option.some.injEq, Prod.mk.injEq] at h
    have hX : (-0.5 : K) * b / a = -b / (2 * a) := by
      norm_num
      field_simp
    rw [← h.1, ← h.2, hX]
    exact ⟨rfl, rfl⟩

/-- The roots in exact arithmetic, at the polynomial `x^2 - 3x + 2`. -/
theorem solveQuadratic_roots_witness :
    CMath.Exact (⟨Real.sqrt, Real.rpow⟩ : CMath ℝ) ∧ (1 : ℝ) ≠ 0 ∧
    ∀ x0 x1, solveQuadratic (⟨Real.sqrt, Real.rpow⟩ : CMath ℝ) 1 (-3) 2 = some (x0, x1) →
      (∀ x : ℝ, 1 * x * x + -3 * x + 2 = 0 ↔ x = x0 ∨ x = x1) ∧
      ((-3 : ℝ) * -3 - 4 * 1 * 2 = 0 → x0 = - -3 / (2 * 1) ∧ x1 = - -3 / (2 * 1)) :=
  ⟨exact_real _, one_ne_zero,
    (solveQuadratic_roots (⟨Real.sqrt, Real.rpow⟩ : CMath ℝ) (exact_real _) 1 (-3) 2
      one_ne_zero).2.2.2⟩

/-! ## Rays that leave the sphere behind, and rescaled directions -/

/-- Without a strictly positive root there is no hit. -/
theorem intersect_eq_none_of_no_root (m : CMath K) (hm : m.Exact) (ray : Ray K) (s : Sphere K)
    (hD : ray.direction ≠ 0) (h : ∀ t, 0 < t → ¬ onSphere ray s t) :
    intersect m ray s = none := by
  rcases intersect_roots m hm ray s hD with ⟨hnone, -⟩ | ⟨t0, t1, -, hroot, hres⟩
  · exact hnone
  · have h0 : ¬ t0 > 0 := fun h0 => h t0 h0 ((hroot t0).mpr (Or.inl rfl))
    have h1 : ¬ t1 > 0 := fun h1 => h t1 h1 ((hroot t1).mpr (Or.inr rfl))
    rw [hres]
    simp [h0, h1]

/-- The result of `intersect` is `some t` exactly when `t` is the least
strictly positive root of the equation of the ray and the sphere. -/
theorem intersect_eq_some_iff (m : CMath K) (hm : m.Exact) (ray : Ray K) (s : Sphere K)
    (hD : ray.direction ≠ 0) (t : K) :
    intersect m ray s = some t ↔
      0 < t ∧ onSphere ray s t ∧ ∀ u, 0 < u → onSphere ray s u → t ≤ u := by
  rcases intersect_roots m hm ray s hD with ⟨hnone, hno⟩ | ⟨t0, t1, h01, hroot, hres⟩
  · rw [hnone]
    constructor
    · intro h
      exact absurd h (by simp)
    · rintro ⟨-, hon, -⟩
      exact absurd hon (hno t)
  · rw [hres]
    by_cases h0 : t0 > 0
    · simp only [h0, if_true, Option.some.injEq]
      constructor
      · rintro rfl
        refine ⟨h0, (hroot _).mpr (Or.inl rfl), fun u _ hu => ?_⟩
        rcases (hroot u).mp hu with rfl | rfl
        · exact le_rfl
        · exact h01
      · rintro ⟨ht, hon, hmin⟩
        rcases (hroot t).mp hon with rfl | rfl
        · rfl
        · exact le_antisymm h01 (hmin t0 h0 ((hroot t0).mpr (Or.inl rfl)))
    · by_cases h1 : t1 > 0
      · simp only [h0, h1, if_true, if_false, Option.some.injEq]
        constructor
        · rintro rfl
          refine ⟨h1, (hroot _).mpr (Or.inr rfl), fun u hpos hu => ?_⟩
          rcases (hroot u).mp hu with rfl | rfl
          · exact absurd hpos h0
          · exact le_rfl
        · rintro ⟨ht, hon, -⟩
          rcases (hroot t).mp hon with rfl | rfl
          · exact absurd ht h0
          · rfl
      · simp only [h0, h1, if_false]
        constructor
        · intro h
          exact absurd h (by simp)
        · rintro ⟨ht, hon, -⟩
          rcases (hroot t).mp hon with rfl | rfl
          · exact absurd ht h0
          · exact absurd ht h1

/-- In exact arithmetic (an ordered field with an exact square root; the
rounding of double is not modelled): for a sphere with radius `r > 0` and a
ray with non-zero direction
`D` whose origin `O` is outside the sphere (`|O - C| > r`) and whose
direction points away from it (`dot(D, C - O) ≤ 0`), `intersect` reports no
hit. -/
theorem intersect_outside_away (m : CMath K) (hm : m.Exact) (ray : Ray K) (s : Sphere K)
    (hr : 0 < s.radius) (hD : ray.direction ≠ 0)
    (hout : s.radius < m.sqrt (lenSq (ray.origin - s.center)))
    (haway : dot ray.direction (s.center - ray.origin) ≤ 0) :
    intersect m ray s = none := by
  have ha : 0 < lenSq ray.direction := lenSq_pos hD
  obtain ⟨hs0, hss⟩ := hm _ (lenSq_nonneg (ray.origin - s.center))
  have hc : s.radius * s.radius < lenSq (ray.origin - s.center) := by
    rw [← hss]
    exact mul_self_lt_mul_self hr.le hout
  have hb : 0 ≤ dot ray.direction (ray.origin - s.center) := by
    have e : dot ray.direction (ray.origin - s.center)
        = - dot ray.direction (s.center - ray.origin) := by
      unfold dot
      simp only [Vec3.sub_x, Vec3.sub_y, Vec3.sub_z]
      ring
    rw [e]
    linarith
  apply intersect_eq_none_of_no_root m hm ray s hD
  intro t ht hon
  rw [onSphere_iff] at hon
  have h1 : 0 < lenSq ray.direction * t * t := by positivity
  have h2 : 0 ≤ 2 * dot ray.direction (ray.origin - s.center) * t := by positivity
  linarith

/-- A ray that points away, at the unit sphere centred at (0,0,3) and the
ray from the origin with direction (0,0,-1). -/
theorem intersect_outside_away_witness :
    intersect (⟨Real.sqrt, Real.rpow⟩ : CMath ℝ) ⟨⟨0, 0, 0⟩, ⟨0, 0, -1⟩⟩ ⟨⟨0, 0, 3⟩, 1⟩
      = none := by
  have h9 : Real.sqrt (lenSq ((⟨0, 0, 0⟩ : Vec3 ℝ) - ⟨0, 0, 3⟩)) = 3 :=
    real_sqrt_of_sq (by norm_num) (by norm_num [lenSq, dot])
  exact intersect_outside_away (⟨Real.sqrt, Real.rpow⟩ : CMath ℝ) (exact_real _)
    ⟨⟨0, 0, 0⟩, ⟨0, 0, -1⟩⟩ ⟨⟨0, 0, 3⟩, 1⟩ (by norm_num) (Vec3.ne_zero_of_z (by norm_num))
    (by
      show (1 : ℝ) < Real.sqrt (lenSq ((⟨0, 0, 0⟩ : Vec3 ℝ) - ⟨0, 0, 3⟩))
      rw [h9]
      norm_num)
    (by norm_num [dot])

theorem Vec3.scale_ne_zero {v : Vec3 K} {k : K} (hv : v ≠ 0) (hk : k ≠ 0) : v.scale k ≠ 0 := by
  intro h
  apply hv
  have hx := congrArg Vec3.x h
  have hy := congrArg Vec3.y h
  have hz := congrArg Vec3.z h
  simp only [Vec3.scale_x, Vec3.scale_y, Vec3.scale_z, Vec3.zero_x, Vec3.zero_y, Vec3.zero_z,
    mul_eq_zero, hk, or_false] at hx hy hz
  ext <;> simp [hx, hy, hz]

theorem Vec3.scale_scale (v : Vec3 K) (k u : K) : (v.scale k).scale u = v.scale (k * u) := by
  ext <;> simp [mul_assoc]

theorem onSphere_scale (ray : Ray K) (s : Sphere K) (k u : K) :
    onSphere ⟨ray.origin, ray.direction.scale k⟩ s u ↔ onSphere ray s (k * u) := by
  unfold onSphere
  rw [Vec3.scale_scale]

/-- A hit at `t` becomes a hit at `t / k` when the direction is multiplied by
`k > 0`. -/
theorem intersect_scale_some (m : CMath K) (hm : m.Exact) (ray : Ray K) (s : Sphere K)
    (hD : ray.direction ≠ 0) (k : K) (hk : 0 < k) (t : K) (h : intersect m ray s = some t) :
    intersect m ⟨ray.origin, ray.direction.scale k⟩ s = some (t / k) := by
  obtain ⟨ht, hon, hmin⟩ := (intersect_eq_some_iff m hm ray s hD t).mp h
  rw [intersect_eq_some_iff m hm _ s (Vec3.scale_ne_zero hD hk.ne')]
  refine ⟨div_pos ht hk, ?_, fun u hu hou => ?_⟩
  · rw [onSphere_scale, mul_div_cancel₀ _ hk.ne']
    exact hon
  · rw [onSphere_scale] at hou
    rw [div_le_iff₀ hk, mul_comm]
    exact hmin (k * u) (mul_pos hk hu) hou

/-- In exact arithmetic (an ordered field with an exact square root; the
rounding of double is not modelled): for a ray with origin `O` and non-zero
direction `D` and a factor
`k > 0`, `intersect` on `Ray(O, k*D)` reports a hit exactly when `intersect`
on `Ray(O, D)` does, the distances satisfy `t_k = t / k`, and the hit point
`O + t_k*(k*D)` is the hit point `O + t*D`. -/
theorem intersect_rescale (m : CMath K) (hm : m.Exact) (ray : Ray K) (s : Sphere K)
    (hD : ray.direction ≠ 0) (k : K) (hk : 0 < k) :
    ((intersect m ⟨ray.origin, ray.direction.scale k⟩ s).isSome ↔ (intersect m ray s).isSome) ∧
    ∀ t, intersect m ray s = some t →
      intersect m ⟨ray.origin, ray.direction.scale k⟩ s = some (t / k) ∧
      ray.origin + (ray.direction.scale k).scale (t / k) = ray.origin + ray.direction.scale t := by
  refine ⟨⟨fun h => ?_, fun h => ?_⟩, fun t ht => ⟨intersect_scale_some m hm ray s hD k hk t ht, ?_⟩⟩
  · obtain ⟨u, hu⟩ := Option.isSome_iff_exists.mp h
    have h2 := intersect_scale_some m hm ⟨ray.origin, ray.direction.scale k⟩ s
      (Vec3.scale_ne_zero hD hk.ne') (1 / k) (one_div_pos.mpr hk) u hu
    have e : (ray.direction.scale k).scale (1 / k) = ray.direction := by
      ext <;> simp [hk.ne']
    simp only [e] at h2
    have e2 : (⟨ray.origin, ray.direction⟩ : Ray K) = ray := rfl
    rw [e2] at h2
    rw [h2]
    rfl
  · obtain ⟨t, ht⟩ := Option.isSome_iff_exists.mp h
    rw [intersect_scale_some m hm ray s hD k hk t ht]
    rfl
  · rw [Vec3.scale_scale, mul_div_cancel₀ _ hk.ne']

/-- A rescaled direction, at the unit sphere centred at (0,0,3), the ray
from the origin with direction (0,0,1) and the factor 2. -/
theorem intersect_rescale_witness :
    intersect (⟨Real.sqrt, Real.rpow⟩ : CMath ℝ) ⟨⟨0, 0, 0⟩, ⟨0, 0, 1⟩⟩ ⟨⟨0, 0, 3⟩, 1⟩
      = some 2 ∧
    intersect (⟨Real.sqrt, Real.rpow⟩ : CMath ℝ)
      ⟨⟨0, 0, 0⟩, (⟨0, 0, 1⟩ : Vec3 ℝ).scale 2⟩ ⟨⟨0, 0, 3⟩, 1⟩ = some (2 / 2) ∧
    (⟨0, 0, 0⟩ : Vec3 ℝ) + ((⟨0, 0, 1⟩ : Vec3 ℝ).scale 2).scale (2 / 2)
      = ⟨0, 0, 0⟩ + (⟨0, 0, 1⟩ : Vec3 ℝ).scale 2 := by
  have h4 : Real.sqrt 4 = 2 := real_sqrt_of_sq (by norm_num) (by norm_num)
  have e : intersect (⟨Real.sqrt, Real.rpow⟩ : CMath ℝ) ⟨⟨0, 0, 0⟩, ⟨0, 0, 1⟩⟩
      ⟨⟨0, 0, 3⟩, 1⟩ = some 2 := by
    norm_num [intersect, solveQuadratic, lenSq, dot, h4]
  exact ⟨e, (intersect_rescale (⟨Real.sqrt, Real.rpow⟩ : CMath ℝ) (exact_real _)
    ⟨⟨0, 0, 0⟩, ⟨0, 0, 1⟩⟩ ⟨⟨0, 0, 3⟩, 1⟩ (Vec3.ne_zero_of_z (by norm_num)) 2
    (by norm_num)).2 2 e⟩

/-! ## Order of the objects and entry value of `t` -/

/-- C15. For two scenes whose `objs` are permutations of each other,
`inshadow(rayLight, L)` returns the same boolean for every `rayLight` and
`L`: the search order and the early exit do not affect the result. -/
theorem Scene.inshadow_perm (m : CMath K) (s1 s2 : Scene K) (rayLight : Ray K) (L : Vec3 K)
    (h : s1.objs.Perm s2.objs) :
    s1.inshadow m rayLight L = s2.inshadow m rayLight L := by
  rw [Bool.eq_iff_iff]
  unfold Scene.inshadow
  rw [Scene.inshadowLoop_iff, Scene.inshadowLoop_iff]
  constructor
  · rintro ⟨obj, hobj, hrest⟩
    exact ⟨obj, h.mem_iff.mp hobj, hrest⟩
  · rintro ⟨obj, hobj, hrest⟩
    exact ⟨obj, h.mem_iff.mpr hobj, hrest⟩

/-- C15, at two unit spheres centred at (0,0,3) and (0,0,7) listed in both
orders, the light ray from the origin along the z axis and the light at
(0,0,10). -/
theorem Scene.inshadow_perm_witness :
    Scene.inshadow (⟨Real.sqrt, Real.rpow⟩ : CMath ℝ)
        ⟨⟨0, 0, 0⟩, ⟨0, 0, 0⟩,
          [⟨⟨⟨0, 0, 3⟩, 1⟩, ⟨0, 0, 0, 0⟩⟩, ⟨⟨⟨0, 0, 7⟩, 1⟩, ⟨0, 0, 0, 0⟩⟩], []⟩
        ⟨⟨0, 0, 0⟩, ⟨0, 0, 1⟩⟩ ⟨0, 0, 10⟩
      = Scene.inshadow (⟨Real.sqrt, Real.rpow⟩ : CMath ℝ)
        ⟨⟨0, 0, 0⟩, ⟨0, 0, 0⟩,
          [⟨⟨⟨0, 0, 7⟩, 1⟩, ⟨0, 0, 0, 0⟩⟩, ⟨⟨⟨0, 0, 3⟩, 1⟩, ⟨0, 0, 0, 0⟩⟩], []⟩
        ⟨⟨0, 0, 0⟩, ⟨0, 0, 1⟩⟩ ⟨0, 0, 10⟩ :=
  Scene.inshadow_perm (⟨Real.sqrt, Real.rpow⟩ : CMath ℝ)
    ⟨⟨0, 0, 0⟩, ⟨0, 0, 0⟩,
      [⟨⟨⟨0, 0, 3⟩, 1⟩, ⟨0, 0, 0, 0⟩⟩, ⟨⟨⟨0, 0, 7⟩, 1⟩, ⟨0, 0, 0, 0⟩⟩], []⟩
    ⟨⟨0, 0, 0⟩, ⟨0, 0, 0⟩,
      [⟨⟨⟨0, 0, 7⟩, 1⟩, ⟨0, 0, 0, 0⟩⟩, ⟨⟨⟨0, 0, 3⟩, 1⟩, ⟨0, 0, 0, 0⟩⟩], []⟩
    ⟨⟨0, 0, 0⟩, ⟨0, 0, 1⟩⟩ ⟨0, 0, 10⟩ (List.Perm.swap _ _ _)

/-- Started with the null pointer, the loop of `Scene::intersect` returns the
same pointer for every entry value of `t`, and the same `t` when the pointer
is not null. -/
theorem Scene.intersectLoop_entry (m : CMath K) (ray : Ray K) :
    ∀ (rest : List (Object K)) (i : Nat) (t1 t2 : K),
      (Scene.intersectLoop m ray rest i none t1).1 = (Scene.intersectLoop m ray rest i none t2).1 ∧
      ((Scene.intersectLoop m ray rest i none t1).1.isSome →
        (Scene.intersectLoop m ray rest i none t1).2
          = (Scene.intersectLoop m ray rest i none t2).2) := by
  intro rest
  induction rest with
  | nil =>
    intro i t1 t2
    simp [Scene.intersectLoop_nil]
  | cons obj rest ih =>
    intro i t1 t2
    rw [Scene.intersectLoop_cons, Scene.intersectLoop_cons]
    rcases hi : RayTracer.intersect m ray obj.geom with _ | tt
    · exact ih (i + 1) t1 t2
    · simp

/-- C20. The pointer returned by `Scene::intersect`, and the value of `t`
whenever the pointer is not null, do not depend on the value `t` holds on
entry; and `cast` returns the same colour whatever its uninitialised local
`t` holds. -/
theorem Scene.intersect_entry_independent (m : CMath K) (s : Scene K) (ray : Ray K)
    (t1 t2 : K) :
    (s.intersect m ray t1).1 = (s.intersect m ray t2).1 ∧
    ((s.intersect m ray t1).1.isSome → (s.intersect m ray t1).2 = (s.intersect m ray t2).2) ∧
    s.cast m ray t1 = s.cast m ray t2 := by
  have h := Scene.intersectLoop_entry m ray s.objs 0 t1 t2
  refine ⟨h.1, h.2, ?_⟩
  unfold Scene.cast
  have h1 : (s.intersect m ray t1).1 = (s.intersect m ray t2).1 := h.1
  have h2 : (s.intersect m ray t1).1.isSome →
      (s.intersect m ray t1).2 = (s.intersect m ray t2).2 := h.2
  rcases hr1 : s.intersect m ray t1 with ⟨o1, u1⟩
  rcases hr2 : s.intersect m ray t2 with ⟨o2, u2⟩
  rw [hr1, hr2] at h1 h2
  simp only at h1 h2
  subst h1
  rcases o1 with _ | ⟨i, o⟩
  · rfl
  · have hu : u1 = u2 := h2 rfl
    subst hu
    rfl

/-- C16, the code at two unit spheres on the z axis, a red one centred at
(0,0,3) and a green one centred at (0,0,2.9999995), and the ray from the
origin along the axis.  The raw hit distances 2 and 1.9999995 differ.  With
the red sphere first `Scene::intersect` returns the red one with
`t = 1.999999` and `cast` returns red; with the green sphere first it returns
the green one with `t = 1.9999985` and `cast` returns green. -/
theorem Scene.intersect_order_dependent (t : ℝ) :
    RayTracer.intersect (⟨Real.sqrt, Real.rpow⟩ : CMath ℝ) ⟨⟨0, 0, 0⟩, ⟨0, 0, 1⟩⟩
        ⟨⟨0, 0, 3⟩, 1⟩ = some 2 ∧
    RayTracer.intersect (⟨Real.sqrt, Real.rpow⟩ : CMath ℝ) ⟨⟨0, 0, 0⟩, ⟨0, 0, 1⟩⟩
        ⟨⟨0, 0, 2.9999995⟩, 1⟩ = some 1.9999995 ∧
    Scene.intersect (⟨Real.sqrt, Real.rpow⟩ : CMath ℝ)
        ⟨⟨0, 0, 0⟩, ⟨1, 1, 1⟩,
          [⟨⟨⟨0, 0, 3⟩, 1⟩, ⟨⟨1, 0, 0⟩, 0, 0, 0⟩⟩,
            ⟨⟨⟨0, 0, 2.9999995⟩, 1⟩, ⟨⟨0, 1, 0⟩, 0, 0, 0⟩⟩], []⟩
        ⟨⟨0, 0, 0⟩, ⟨0, 0, 1⟩⟩ t
      = (some (0, ⟨⟨⟨0, 0, 3⟩, 1⟩, ⟨⟨1, 0, 0⟩, 0, 0, 0⟩⟩), 1.999999) ∧
    Scene.intersect (⟨Real.sqrt, Real.rpow⟩ : CMath ℝ)
        ⟨⟨0, 0, 0⟩, ⟨1, 1, 1⟩,
          [⟨⟨⟨0, 0, 2.9999995⟩, 1⟩, ⟨⟨0, 1, 0⟩, 0, 0, 0⟩⟩,
            ⟨⟨⟨0, 0, 3⟩, 1⟩, ⟨⟨1, 0, 0⟩, 0, 0, 0⟩⟩], []⟩
        ⟨⟨0, 0, 0⟩, ⟨0, 0, 1⟩⟩ t
      = (some (0, ⟨⟨⟨0, 0, 2.9999995⟩, 1⟩, ⟨⟨0, 1, 0⟩, 0, 0, 0⟩⟩), 1.9999985) ∧
    Scene.cast (⟨Real.sqrt, Real.rpow⟩ : CMath ℝ)
        ⟨⟨0, 0, 0⟩, ⟨1, 1, 1⟩,
          [⟨⟨⟨0, 0, 3⟩, 1⟩, ⟨⟨1, 0, 0⟩, 0, 0, 0⟩⟩,
            ⟨⟨⟨0, 0, 2.9999995⟩, 1⟩, ⟨⟨0, 1, 0⟩, 0, 0, 0⟩⟩], []⟩
        ⟨⟨0, 0, 0⟩, ⟨0, 0, 1⟩⟩ t = ⟨1, 0, 0⟩ ∧
    Scene.cast (⟨Real.sqrt, Real.rpow⟩ : CMath ℝ)
        ⟨⟨0, 0, 0⟩, ⟨1, 1, 1⟩,
          [⟨⟨⟨0, 0, 2.9999995⟩, 1⟩, ⟨⟨0, 1, 0⟩, 0, 0, 0⟩⟩,
            ⟨⟨⟨0, 0, 3⟩, 1⟩, ⟨⟨1, 0, 0⟩, 0, 0, 0⟩⟩], []⟩
        ⟨⟨0, 0, 0⟩, ⟨0, 0, 1⟩⟩ t = ⟨0, 1, 0⟩ := by
  have h4 : Real.sqrt 4 = 2 := real_sqrt_of_sq (by norm_num) (by norm_num)
  have e1 : RayTracer.intersect (⟨Real.sqrt, Real.rpow⟩ : CMath ℝ) ⟨⟨0, 0, 0⟩, ⟨0, 0, 1⟩⟩
      ⟨⟨0, 0, 3⟩, 1⟩ = some 2 := by
    norm_num [RayTracer.intersect, solveQuadratic, lenSq, dot, h4]
  have e2 : RayTracer.intersect (⟨Real.sqrt, Real.rpow⟩ : CMath ℝ) ⟨⟨0, 0, 0⟩, ⟨0, 0, 1⟩⟩
      ⟨⟨0, 0, 2.9999995⟩, 1⟩ = some 1.9999995 := by
    norm_num [RayTracer.intersect, solveQuadratic, lenSq, dot, h4]
  have i1 : Scene.intersect (⟨Real.sqrt, Real.rpow⟩ : CMath ℝ)
      ⟨⟨0, 0, 0⟩, ⟨1, 1, 1⟩,
        [⟨⟨⟨0, 0, 3⟩, 1⟩, ⟨⟨1, 0, 0⟩, 0, 0, 0⟩⟩,
          ⟨⟨⟨0, 0, 2.9999995⟩, 1⟩, ⟨⟨0, 1, 0⟩, 0, 0, 0⟩⟩], []⟩
      ⟨⟨0, 0, 0⟩, ⟨0, 0, 1⟩⟩ t
      = (some (0, ⟨⟨⟨0, 0, 3⟩, 1⟩, ⟨⟨1, 0, 0⟩, 0, 0, 0⟩⟩), 1.999999) := by
    simp only [Scene.intersect, Scene.intersectLoop, e1, e2, or_true, if_true]
    norm_num [bias]
    exact Option.some_ne_none _
  have i2 : Scene.intersect (⟨Real.sqrt, Real.rpow⟩ : CMath ℝ)
      ⟨⟨0, 0, 0⟩, ⟨1, 1, 1⟩,
        [⟨⟨⟨0, 0, 2.9999995⟩, 1⟩, ⟨⟨0, 1, 0⟩, 0, 0, 0⟩⟩,
          ⟨⟨⟨0, 0, 3⟩, 1⟩, ⟨⟨1, 0, 0⟩, 0, 0, 0⟩⟩], []⟩
      ⟨⟨0, 0, 0⟩, ⟨0, 0, 1⟩⟩ t
      = (some (0, ⟨⟨⟨0, 0, 2.9999995⟩, 1⟩, ⟨⟨0, 1, 0⟩, 0, 0, 0⟩⟩), 1.9999985) := by
    simp only [Scene.intersect, Scene.intersectLoop, e1, e2, or_true, if_true]
    norm_num [bias]
    exact Option.some_ne_none _
  refine ⟨e1, e2, i1, i2, ?_, ?_⟩
  · simp only [Scene.cast, i1, Scene.lighting, List.foldl_nil]
    ext <;> norm_num [clamp]
  · simp only [Scene.cast, i2, Scene.lighting, List.foldl_nil]
    ext <;> norm_num [clamp]

/-! ## Lights in shadow -/

theorem Scene.inshadow_withLights (m : CMath K) (s : Scene K) (lights : List (Light K))
    (rayLight : Ray K) (L : Vec3 K) :
    (s.withLights lights).inshadow m rayLight L = s.inshadow m rayLight L := rfl

theorem Scene.lightingStep_withLights (m : CMath K) (s : Scene K) (lights : List (Light K))
    (incidence normal rayDirection : Vec3 K) (mat : Material K) :
    (s.withLights lights).lightingStep m incidence normal rayDirection mat
      = s.lightingStep m incidence normal rayDirection mat := rfl

theorem Scene.foldl_lightingStep_filter (m : CMath K) (s : Scene K)
    (incidence normal rayDirection : Vec3 K) (mat : Material K) :
    ∀ (ls : List (Light K)) (acc : Accum K),
      (ls.filter (s.lit m incidence)).foldl
          (s.lightingStep m incidence normal rayDirection mat) acc
        = ls.foldl (s.lightingStep m incidence normal rayDirection mat) acc := by
  intro ls
  induction ls with
  | nil => intro acc; rfl
  | cons l ls ih =>
    intro acc
    by_cases hl : s.inshadow m ⟨incidence, normalize m (l.pos - incidence)⟩
        (l.pos - incidence) = true
    · have hlit : s.lit m incidence l = false := by simp [Scene.lit, hl]
      rw [List.filter_cons_of_neg (by simp [hlit]), List.foldl_cons,
        Scene.lightingStep_shadowed m s incidence normal rayDirection mat acc l hl]
      exact ih acc
    · have hlit : s.lit m incidence l = true := by simp [Scene.lit, hl]
      rw [List.filter_cons_of_pos hlit, List.foldl_cons, List.foldl_cons]
      exact ih _

/-- C13. The result of `lighting` is unchanged when every light that is in
shadow at the shading point is removed from `lights`; and when every light is
in shadow (in particular when there are no lights) `lighting` returns
`clamp(scene.ambience*mat.ambient, 0, 1)`, whatever the normal, the ray
direction and the diffuse colour, specular colour and shininess of the
material are. -/
theorem Scene.lighting_drop_shadowed (m : CMath K) (s : Scene K)
    (incidence normal rayDirection : Vec3 K) (mat : Material K) :
    (s.withLights (s.lights.filter (s.lit m incidence))).lighting m incidence normal
        rayDirection mat
      = s.lighting m incidence normal rayDirection mat ∧
    ((∀ l ∈ s.lights, s.inshadow m ⟨incidence, normalize m (l.pos - incidence)⟩
        (l.pos - incidence) = true) →
      s.lighting m incidence normal rayDirection mat = clamp (s.ambience * mat.ambient) 0 1) ∧
    (s.lights = [] →
      s.lighting m incidence normal rayDirection mat
        = clamp (s.ambience * mat.ambient) 0 1) := by
  have hall : (∀ l ∈ s.lights, s.inshadow m ⟨incidence, normalize m (l.pos - incidence)⟩
        (l.pos - incidence) = true) →
      s.lighting m incidence normal rayDirection mat
        = clamp (s.ambience * mat.ambient) 0 1 := by
    intro h
    unfold Scene.lighting
    simp only [Scene.foldl_lightingStep_shadowed m s incidence normal rayDirection mat
      s.lights _ h]
    congr 1
    ext <;> simp
  refine ⟨?_, hall, fun h => hall (fun l hl => ?_)⟩
  · unfold Scene.lighting
    simp only [Scene.lightingStep_withLights]
    show clamp _ 0 1 = clamp _ 0 1
    have e := Scene.foldl_lightingStep_filter m s incidence normal rayDirection mat s.lights
      ⟨0 + s.ambience * mat.ambient, 0, 0⟩
    simp only [Scene.withLights]
    rw [e]
  · rw [h] at hl
    exact absurd hl (by simp)

/-- C13, at the shading point (0,0,0) with the light at (0,0,10) behind the
unit sphere centred at (0,0,3): the light is in shadow and `lighting` returns
the clamped scene-wide ambient term. -/
theorem Scene.lighting_drop_shadowed_witness :
    Scene.inshadow (⟨Real.sqrt, Real.rpow⟩ : CMath ℝ)
        ⟨⟨0, 0, 0⟩, ⟨0.5, 0.5, 0.5⟩, [⟨⟨⟨0, 0, 3⟩, 1⟩, ⟨0, 0, 0, 0⟩⟩],
          [⟨⟨0, 0, 10⟩, ⟨⟨1, 1, 1⟩, ⟨1, 1, 1⟩, ⟨1, 1, 1⟩⟩⟩]⟩
        ⟨⟨0, 0, 0⟩, normalize ⟨Real.sqrt, Real.rpow⟩ (⟨0, 0, 10⟩ - ⟨0, 0, 0⟩)⟩
        (⟨0, 0, 10⟩ - ⟨0, 0, 0⟩) = true ∧
    Scene.lighting (⟨Real.sqrt, Real.rpow⟩ : CMath ℝ)
        ⟨⟨0, 0, 0⟩, ⟨0.5, 0.5, 0.5⟩, [⟨⟨⟨0, 0, 3⟩, 1⟩, ⟨0, 0, 0, 0⟩⟩],
          [⟨⟨0, 0, 10⟩, ⟨⟨1, 1, 1⟩, ⟨1, 1, 1⟩, ⟨1, 1, 1⟩⟩⟩]⟩
        ⟨0, 0, 0⟩ ⟨0, 0, 1⟩ ⟨0, 0, -1⟩ ⟨⟨1, 1, 1⟩, ⟨1, 1, 1⟩, ⟨1, 1, 1⟩, 8⟩
      = clamp ((⟨0.5, 0.5, 0.5⟩ : Vec3 ℝ) * ⟨1, 1, 1⟩) 0 1 := by
  have h100 : Real.sqrt 100 = 10 := real_sqrt_of_sq (by norm_num) (by norm_num)
  have h4 : Real.sqrt 4 = 2 := real_sqrt_of_sq (by norm_num) (by norm_num)
  have hn : normalize (⟨Real.sqrt, Real.rpow⟩ : CMath ℝ) (⟨0, 0, 10⟩ - ⟨0, 0, 0⟩)
      = ⟨0, 0, 1⟩ := by
    unfold normalize
    ext <;> norm_num [dot, h100]
  have e : RayTracer.intersect (⟨Real.sqrt, Real.rpow⟩ : CMath ℝ) ⟨⟨0, 0, 0⟩, ⟨0, 0, 1⟩⟩
      ⟨⟨0, 0, 3⟩, 1⟩ = some 2 := by
    norm_num [RayTracer.intersect, solveQuadratic, lenSq, dot, h4]
  have hsh : Scene.inshadow (⟨Real.sqrt, Real.rpow⟩ : CMath ℝ)
      ⟨⟨0, 0, 0⟩, ⟨0.5, 0.5, 0.5⟩, [⟨⟨⟨0, 0, 3⟩, 1⟩, ⟨0, 0, 0, 0⟩⟩],
        [⟨⟨0, 0, 10⟩, ⟨⟨1, 1, 1⟩, ⟨1, 1, 1⟩, ⟨1, 1, 1⟩⟩⟩]⟩
      ⟨⟨0, 0, 0⟩, normalize ⟨Real.sqrt, Real.rpow⟩ (⟨0, 0, 10⟩ - ⟨0, 0, 0⟩)⟩
      (⟨0, 0, 10⟩ - ⟨0, 0, 0⟩) = true := by
    rw [hn]
    simp only [Scene.inshadow, Scene.inshadowLoop, e]
    norm_num [bias, lenSq, dot]
  refine ⟨hsh, (Scene.lighting_drop_shadowed (⟨Real.sqrt, Real.rpow⟩ : CMath ℝ)
    ⟨⟨0, 0, 0⟩, ⟨0.5, 0.5, 0.5⟩, [⟨⟨⟨0, 0, 3⟩, 1⟩, ⟨0, 0, 0, 0⟩⟩],
      [⟨⟨0, 0, 10⟩, ⟨⟨1, 1, 1⟩, ⟨1, 1, 1⟩, ⟨1, 1, 1⟩⟩⟩]⟩
    ⟨0, 0, 0⟩ ⟨0, 0, 1⟩ ⟨0, 0, -1⟩ ⟨⟨1, 1, 1⟩, ⟨1, 1, 1⟩, ⟨1, 1, 1⟩, 8⟩).2.1 ?_⟩
  intro l hl
  rw [List.mem_singleton] at hl
  subst hl
  exact hsh

/-! ## Materials without shininess -/

theorem rowMajorIndex_injective :
    ∀ (ss ps qs : List Nat), ss.length = ps.length → ss.length = qs.length →
      inBounds ss ps → inBounds ss qs → rowMajorIndex ss ps = rowMajorIndex ss qs → ps = qs := by
  intro ss
  induction ss with
  | nil =>
    intro ps qs hp hq _ _ _
    rcases ps with _ | ⟨p, ps⟩
    · rcases qs with _ | ⟨q, qs⟩
      · rfl
      · simp at hq
    · simp at hp
  | cons s ss ih =>
    intro ps qs hp hq hinp hinq h
    rcases ps with _ | ⟨p, ps⟩
    · simp at hp
    rcases qs with _ | ⟨q, qs⟩
    · simp at hq
    rw [inBounds_cons] at hinp hinq
    have hp2 : ss.length = ps.length := by simpa using hp
    have hq2 : ss.length = qs.length := by simpa using hq
    have ha := rowMajorIndex_lt_prod ss ps hp2 hinp.2
    have hb := rowMajorIndex_lt_prod ss qs hq2 hinq.2
    have hP : 0 < ss.prod := Nat.lt_of_le_of_lt (Nat.zero_le _) ha
    rw [rowMajorIndex_cons, rowMajorIndex_cons] at h
    have hdiv := congrArg (fun n => n / ss.prod) h
    have hmod := congrArg (fun n => n % ss.prod) h
    simp only [Nat.add_comm (p * ss.prod), Nat.add_comm (q * ss.prod),
      Nat.add_mul_div_right _ _ hP, Nat.div_eq_of_lt ha, Nat.div_eq_of_lt hb, Nat.zero_add]
      at hdiv
    simp only [Nat.add_comm (p * ss.prod), Nat.add_comm (q * ss.prod),
      Nat.add_mul_mod_self_right, Nat.mod_eq_of_lt ha, Nat.mod_eq_of_lt hb] at hmod
    rw [hdiv, ih ps qs hp2 hq2 hinp.2 hinq.2 hmod]

theorem rowMajorIndex_surjective :
    ∀ (ss : List Nat) (i : Nat), i < ss.prod →
      ∃ ps : List Nat, ps.length = ss.length ∧ inBounds ss ps ∧ rowMajorIndex ss ps = i := by
  intro ss
  induction ss with
  | nil =>
    intro i hi
    refine ⟨[], rfl, fun d hd => absurd hd (by simp), ?_⟩
    rw [rowMajorIndex_nil]
    simp at hi
    exact hi.symm
  | cons s ss ih =>
    intro i hi
    rw [List.prod_cons] at hi
    have hP : 0 < ss.prod := by
      rcases Nat.eq_zero_or_pos ss.prod with h0 | h0
      · rw [h0, Nat.mul_zero] at hi
        exact absurd hi (Nat.not_lt_zero _)
      · exact h0
    obtain ⟨ps, hlen, hin, hval⟩ := ih (i % ss.prod) (Nat.mod_lt _ hP)
    refine ⟨(i / ss.prod) :: ps, by simp [hlen], ?_, ?_⟩
    · rw [inBounds_cons]
      exact ⟨(Nat.div_lt_iff_lt_mul hP).mpr hi, hin⟩
    · rw [rowMajorIndex_cons, hval]
      exact Nat.div_add_mod' i ss.prod

/-- C19, amended. For every buffer whose shape has fewer than `2 ^ w` cells,
`w` being the width of `std::size_t`, and whose storage has the length the
constructor gives it, `vectornd::index` is a bijection between the in-bounds
coordinate tuples and the storage positions `0 .. flatten(shape)-1`: every
in-bounds coordinate maps to an index below the allocated length (so `at`
does not go out of range), two different in-bounds coordinates never map to
the same cell, and every storage position is the index of an in-bounds
coordinate. -/
theorem vectornd.index_bijective {T : Type} (w : Nat) (v : vectornd T)
    (hfit : v.m_size.prod < 2 ^ w) (hlen : v.data.length = vectornd.flatten w v.m_size) :
    (∀ pos : List Nat, pos.length = v.m_size.length → inBounds v.m_size pos →
      ∃ i, v.index w pos = some i ∧ i < v.data.length ∧ (v.atPos w pos).isSome) ∧
    (∀ pos1 pos2 : List Nat, pos1.length = v.m_size.length → pos2.length = v.m_size.length →
      inBounds v.m_size pos1 → inBounds v.m_size pos2 →
      v.index w pos1 = v.index w pos2 → pos1 = pos2) ∧
    (∀ i, i < vectornd.flatten w v.m_size →
      ∃ pos : List Nat, pos.length = v.m_size.length ∧ inBounds v.m_size pos ∧
        v.index w pos = some i) := by
  have hflat := vectornd.flatten_eq_prod w v.m_size hfit
  refine ⟨fun pos hD hin => ?_, fun pos1 pos2 h1 h2 hin1 hin2 h => ?_, fun i hi => ?_⟩
  · obtain ⟨hidx, hlt⟩ := vectornd.index_of_inBounds w v pos hD hin hfit
    have hlt2 : rowMajorIndex v.m_size pos < v.data.length := by
      rw [hlen, hflat]
      exact hlt
    refine ⟨_, hidx, hlt2, ?_⟩
    unfold vectornd.atPos
    rw [hidx]
    simp [hlt2]
  · rw [(vectornd.index_of_inBounds w v pos1 h1 hin1 hfit).1,
      (vectornd.index_of_inBounds w v pos2 h2 hin2 hfit).1] at h
    exact rowMajorIndex_injective v.m_size pos1 pos2 h1.symm h2.symm hin1 hin2
      (Option.some.inj h)
  · rw [hflat] at hi
    obtain ⟨pos, hD, hin, hval⟩ := rowMajorIndex_surjective v.m_size i hi
    exact ⟨pos, hD, hin, by rw [(vectornd.index_of_inBounds w v pos hD hin hfit).1, hval]⟩

/-- C19 amended, at the buffer of `main`, shape (480, 640), and the pixel
(479, 639), with a 64-bit `std::size_t`. -/
theorem vectornd.index_bijective_witness :
    ∃ i, vectornd.index 64 (vectornd.create 64 [480, 640] (0 : Nat)) [479, 639] = some i ∧
      i < (vectornd.create 64 [480, 640] (0 : Nat)).data.length ∧
      (vectornd.atPos 64 (vectornd.create 64 [480, 640] (0 : Nat)) [479, 639]).isSome :=
  (vectornd.index_bijective 64 (vectornd.create 64 [480, 640] (0 : Nat))
    (by simp [vectornd.create]) (by simp [vectornd.create])).1 [479, 639] rfl
    (by
      intro d hd
      have hd2 : d < 2 := hd
      interval_cases d <;> simp [vectornd.create])

/-- C19 fails as stated: with a 64-bit `std::size_t` and the shape
(2^33, 2^32), the in-bounds coordinates (0,0) and (2^32,0) both get the index
0, and the allocated length `flatten` is 0. -/
theorem vectornd.index_collides :
    inBounds [8589934592, 4294967296] [0, 0] ∧
    inBounds [8589934592, 4294967296] [4294967296, 0] ∧
    vectornd.index 64 (vectornd.create 64 [8589934592, 4294967296] (0 : Nat)) [0, 0]
      = vectornd.index 64 (vectornd.create 64 [8589934592, 4294967296] (0 : Nat))
        [4294967296, 0] ∧
    vectornd.index 64 (vectornd.create 64 [8589934592, 4294967296] (0 : Nat)) [0, 0]
      = some 0 ∧
    (vectornd.create 64 [8589934592, 4294967296] (0 : Nat)).data.length = 0 := by
  refine ⟨?_, ?_, ?_, ?_, ?_⟩
  · rw [inBounds_cons, inBounds_cons]
    exact ⟨by norm_num, by norm_num, fun d hd => absurd hd (by simp)⟩
  · rw [inBounds_cons, inBounds_cons]
    exact ⟨by norm_num, by norm_num, fun d hd => absurd hd (by simp)⟩
  · simp [vectornd.index, vectornd.create, vectornd.indexLoop]
  · simp [vectornd.index, vectornd.create, vectornd.indexLoop]
  · simp [vectornd.create, vectornd.flatten]

end Field

end RayTracer
